import Mathlib

/-!
# Mandelbrot escape-time renderer

A shallow embedding of `Main_basic.cpp` (scalar renderer) and `Main.cpp`
(AVX2 renderer, eight pixels per batch).

The coordinate mapping of `renderTexture` is read in exact rational
arithmetic.  A sample point is then held in a `float`, and the escape-time
loop runs in IEEE 754 binary32: every product, sum and difference is the
exact result rounded to nearest, ties to even, with overflow to infinity and
NaN as in the standard; the fused multiply-add rounds once.  Machine integers
are naturals with the wrap-around written out where the source narrows or
adds in a fixed width.
-/

namespace Mandelbrot

/-! ## Constants shared by both programs (lines 8-33) -/

def WindowWidth : Nat := 1024

def WindowHeight : Nat := 1024

structure Region where
  left : ℚ
  top : ℚ
  right : ℚ
  bottom : ℚ

def RegionOfInterest : Region := { left := -2, top := 1, right := 1, bottom := -1 }

def DeltaX : ℚ := (RegionOfInterest.right - RegionOfInterest.left) / WindowWidth

def DeltaY : ℚ := (RegionOfInterest.top - RegionOfInterest.bottom) / WindowHeight

def SqrRMax : ℚ := 2 * 2

def MaxIterNo : Nat := 255

/-! ## Binary32 arithmetic -/

/-- A binary32 value: the finite number `m * 2 ^ e`, an infinity, or a NaN.
The operations below return finite values with `|m| < 2 ^ 24` and
`-149 ≤ e ≤ 104`, with `2 ^ 23 ≤ |m|` unless `e = -149`; the sign of a zero
is not kept (no operation of the programs depends on it). -/
inductive F32 where
  | fin (m : Int) (e : Int)
  | inf (neg : Bool)
  | nan
deriving DecidableEq, Repr

namespace F32

def bitLengthAux : Nat → Nat → Nat
  | 0, _ => 0
  | fuel + 1, n => if n = 0 then 0 else bitLengthAux fuel (n / 2) + 1

/-- Number of binary digits of `n`. -/
def bitLength (n : Nat) : Nat := bitLengthAux n n

/-- The number `± n * 2 ^ e` rounded to binary32, to nearest, ties to even:
`q` is the exponent of the last kept digit (24 digits, or fewer below
`2 ^ -126`), `r0` the kept digits and `rem` the dropped ones. -/
def roundNat (neg : Bool) (n : Nat) (e : Int) : F32 :=
  if n = 0 then fin 0 (-149)
  else
    let q : Int := max (e + bitLength n - 24) (-149)
    let s : Int := q - e
    let r0 : Nat := if s ≤ 0 then n * 2 ^ (-s).toNat else n / 2 ^ s.toNat
    let rem : Nat := if s ≤ 0 then 0 else n % 2 ^ s.toNat
    let half : Nat := if s ≤ 0 then 1 else 2 ^ (s.toNat - 1)
    let r : Nat := if half < rem ∨ (rem = half ∧ r0 % 2 = 1) then r0 + 1 else r0
    let r' : Nat := if r = 2 ^ 24 then 2 ^ 23 else r
    let q' : Int := if r = 2 ^ 24 then q + 1 else q
    if 104 < q' then inf neg
    else fin (if neg then -(r' : Int) else (r' : Int)) q'

/-- The number `m * 2 ^ e` rounded to binary32. -/
def round (m : Int) (e : Int) : F32 := roundNat (decide (m < 0)) m.natAbs e

/-- The rational `n / d` rounded to binary32: the quotient is cut after more
than 26 digits and a last digit records whether anything was cut off. -/
def ofRatio (n : Int) (d : Nat) : F32 :=
  let k : Nat := bitLength d + 26
  let t : Nat := n.natAbs * 2 ^ k / d
  let sticky : Nat := if n.natAbs * 2 ^ k % d = 0 then 0 else 1
  roundNat (decide (n < 0)) (2 * t + sticky) (-(k : Int) - 1)

/-- The value a `float` variable holds when it is given the rational `q`. -/
def ofRat (q : ℚ) : F32 := ofRatio q.num q.den

/-- The sum `m1 * 2 ^ e1 + m2 * 2 ^ e2`, rounded once. -/
def addFin (m1 e1 m2 e2 : Int) : F32 :=
  round (m1 * 2 ^ (e1 - min e1 e2).toNat + m2 * 2 ^ (e2 - min e1 e2).toNat) (min e1 e2)

def add : F32 → F32 → F32
  | fin m1 e1, fin m2 e2 => addFin m1 e1 m2 e2
  | fin _ _, inf b => inf b
  | inf a, fin _ _ => inf a
  | inf a, inf b => if a = b then inf a else nan
  | _, _ => nan

def neg : F32 → F32
  | fin m e => fin (-m) e
  | inf a => inf (!a)
  | nan => nan

def sub (a b : F32) : F32 := add a (neg b)

def mul : F32 → F32 → F32
  | fin m1 e1, fin m2 e2 => round (m1 * m2) (e1 + e2)
  | fin m _, inf b => if m = 0 then nan else inf (decide (m < 0) != b)
  | inf a, fin m _ => if m = 0 then nan else inf (a != decide (m < 0))
  | inf a, inf b => inf (a != b)
  | _, _ => nan

/-- Fused multiply-add `a * b + c`: the exact product enters the sum, which
is rounded once; a finite product leaves an infinite `c` as it is. -/
def fma : F32 → F32 → F32 → F32
  | fin m1 e1, fin m2 e2, fin m3 e3 => addFin (m1 * m2) (e1 + e2) m3 e3
  | fin _ _, fin _ _, inf c => inf c
  | a, b, c => add (mul a b) c

/-- The comparison `a < b`; false when either side is a NaN. -/
def lt : F32 → F32 → Bool
  | fin m1 e1, fin m2 e2 =>
    decide (m1 * 2 ^ (e1 - min e1 e2).toNat < m2 * 2 ^ (e2 - min e1 e2).toNat)
  | fin _ _, inf b => !b
  | inf a, fin _ _ => a
  | inf a, inf b => a && !b
  | _, _ => false

/-- The comparison `a >= b`; false when either side is a NaN. -/
def ge : F32 → F32 → Bool
  | nan, _ => false
  | _, nan => false
  | a, b => !lt a b

instance : Add F32 := ⟨add⟩

instance : Sub F32 := ⟨sub⟩

instance : Mul F32 := ⟨mul⟩

instance : Neg F32 := ⟨neg⟩

instance : LT F32 := ⟨fun a b => lt a b = true⟩

instance : LE F32 := ⟨fun a b => ge b a = true⟩

instance (a b : F32) : Decidable (a < b) := inferInstanceAs (Decidable (lt a b = true))

instance (a b : F32) : Decidable (a ≤ b) := inferInstanceAs (Decidable (ge b a = true))

/-- An integer constant of the source converted to `float`. -/
instance (n : Nat) : OfNat F32 n := ⟨round n 0⟩

end F32

/-! ## The scalar evaluator of `Main_basic.cpp` -/

namespace Basic

/-- The loop `for (; iterNo < MaxIterNo; ++iterNo)` of lines 141-153, in
binary32.  The first argument is the number of iterations the loop condition
still admits, `MaxIterNo - iterNo`; the result is `iterNo` when the loop is
left. -/
def iterLoop (x0 y0 : F32) : Nat → F32 → F32 → Nat → Nat
  | 0, _, _, iterNo => iterNo
  | n + 1, x, y, iterNo =>
    let sqrX := x * x
    let sqrY := y * y
    let crossProd := x * y
    let sqrR := sqrX + sqrY
    if sqrR ≥ F32.ofRat SqrRMax then iterNo
    else iterLoop x0 y0 n (sqrX - sqrY + x0) (2 * crossProd + y0) (iterNo + 1)

/-- Lines 138-153 for the sample point `(x0, y0)` of the coordinate mapping,
held in the `float` variables `x0` and `y0`: `x = x0`, `y = y0`, `iterNo = 0`,
then the loop. -/
def iterNo (x0 y0 : ℚ) : Nat :=
  iterLoop (F32.ofRat x0) (F32.ofRat y0) MaxIterNo (F32.ofRat x0) (F32.ofRat y0) 0

end Basic

/-! ## The batched evaluator of `Main.cpp` -/

/-- A `__m256` register with lanes in `α`: the rationals in the coordinate
mapping, binary32 values in the escape-time loop. -/
abbrev M256 (α : Type) := Mathlib.Vector α 8

/-- A `__m256i` register read as eight 32-bit lanes. -/
abbrev M256i := Mathlib.Vector Nat 8

def _mm256_set1_ps {α : Type} (a : α) : M256 α := Mathlib.Vector.replicate 8 a

def _mm256_mul_ps {α : Type} [Mul α] (a b : M256 α) : M256 α :=
  Mathlib.Vector.map₂ (fun s t => s * t) a b

def _mm256_add_ps {α : Type} [Add α] (a b : M256 α) : M256 α :=
  Mathlib.Vector.map₂ (fun s t => s + t) a b

def _mm256_sub_ps {α : Type} [Sub α] (a b : M256 α) : M256 α :=
  Mathlib.Vector.map₂ (fun s t => s - t) a b

/-- Fused multiply-add `a * b + c`, lane by lane, one rounding. -/
def _mm256_fmadd_ps (a b c : M256 F32) : M256 F32 :=
  Mathlib.Vector.ofFn fun i => F32.fma (a.get i) (b.get i) (c.get i)

/-- The comparison `_mm256_cmp_ps(a, b, _CMP_LT_OS)`: the lanes where `a < b`. -/
def _mm256_cmp_ps_LT_OS (a b : M256 F32) : Mathlib.Vector Bool 8 :=
  Mathlib.Vector.map₂ (fun s t => decide (s < t)) a b

/-- Bit `i` of the result is the sign bit of lane `i` of the comparison. -/
def _mm256_movemask_ps (m : Mathlib.Vector Bool 8) : Nat :=
  (m.get 0).toNat + (m.get 1).toNat * 2 + (m.get 2).toNat * 4 + (m.get 3).toNat * 8 +
    (m.get 4).toNat * 16 + (m.get 5).toNat * 32 + (m.get 6).toNat * 64 + (m.get 7).toNat * 128

def _mm256_setzero_si256 : M256i := Mathlib.Vector.replicate 8 0

def _mm256_set1_epi32 (a : Nat) : M256i := Mathlib.Vector.replicate 8 (a % 2 ^ 32)

def _mm256_srlv_epi32 (a count : M256i) : M256i :=
  Mathlib.Vector.map₂ (fun s c => if c < 32 then s >>> c else 0) a count

def _mm256_and_si256 (a b : M256i) : M256i := Mathlib.Vector.map₂ (fun s t => s &&& t) a b

def _mm256_add_epi32 (a b : M256i) : M256i :=
  Mathlib.Vector.map₂ (fun s t => (s + t) % 2 ^ 32) a b

/-- A register of sample coordinates, held as `float` lanes. -/
def toFloats (a : M256 ℚ) : M256 F32 := Mathlib.Vector.map F32.ofRat a

namespace Main

/-- Line 133, `_mm256_setr_ps(0, 1, 2, 3, 4, 5, 6, 7)`. -/
def idxSeq : M256 ℚ := Mathlib.Vector.ofFn fun i => (i.val : ℚ)

/-- Line 134. -/
def sqrRMax : M256 F32 := _mm256_set1_ps (F32.ofRat SqrRMax)

/-- Line 135, `_mm256_setr_epi32(0, 1, 2, 3, 4, 5, 6, 7)`. -/
def bitPosSeq : M256i := Mathlib.Vector.ofFn fun i => i.val

/-- Line 136. -/
def bitMask : M256i := _mm256_set1_epi32 1

/-- Line 137. -/
def twoFactor : M256 F32 := _mm256_set1_ps 2

/-- Lines 152-158: the mask `cmp` of one iteration, narrowed to `unsigned char`. -/
def cmpMask (x y : M256 F32) : Nat :=
  let sqrX := _mm256_mul_ps x x
  let sqrY := _mm256_mul_ps y y
  let sqrR := _mm256_add_ps sqrX sqrY
  _mm256_movemask_ps (_mm256_cmp_ps_LT_OS sqrR sqrRMax) % 256

/-- Line 161: the per-lane counters after one iteration with mask `cmp`. -/
def addMask (iterNos : M256i) (cmp : Nat) : M256i :=
  _mm256_add_epi32 iterNos
    (_mm256_and_si256 (_mm256_srlv_epi32 (_mm256_set1_epi32 cmp) bitPosSeq) bitMask)

/-- Line 163. -/
def nextX (x0 x y : M256 F32) : M256 F32 :=
  let sqrX := _mm256_mul_ps x x
  let sqrY := _mm256_mul_ps y y
  _mm256_add_ps (_mm256_sub_ps sqrX sqrY) x0

/-- Line 164. -/
def nextY (y0 x y : M256 F32) : M256 F32 :=
  let crossProd := _mm256_mul_ps x y
  _mm256_fmadd_ps twoFactor crossProd y0

/-- The loop of lines 151-165, in binary32; the first argument is the number
of iterations the loop condition still admits, the result is `iterNos` when
the loop is left. -/
def iterLoop (x0 y0 : M256 F32) : Nat → M256 F32 → M256 F32 → M256i → M256i
  | 0, _, _, iterNos => iterNos
  | n + 1, x, y, iterNos =>
    let cmp := cmpMask x y
    if cmp = 0 then iterNos
    else iterLoop x0 y0 n (nextX x0 x y) (nextY y0 x y) (addMask iterNos cmp)

/-- Lines 145-165 for one batch whose sample points are the lanes of `x0` and
`y0`, held in `__m256` registers of `float`. -/
def iterNos (x0 y0 : M256 ℚ) : M256i :=
  iterLoop (toFloats x0) (toFloats y0) MaxIterNo (toFloats x0) (toFloats y0)
    _mm256_setzero_si256

/-- The lane registers `(x, y)` at the start of iteration `k` of the loop. -/
def lanesAt (x0 y0 : M256 F32) : Nat → M256 F32 × M256 F32
  | 0 => (x0, y0)
  | k + 1 => (nextX x0 (lanesAt x0 y0 k).1 (lanesAt x0 y0 k).2,
              nextY y0 (lanesAt x0 y0 k).1 (lanesAt x0 y0 k).2)

/-- The counters `iterNos` at the start of iteration `k` of the loop, when the
loop has not been left before. -/
def countsAt (x0 y0 : M256 F32) : Nat → M256i
  | 0 => _mm256_setzero_si256
  | k + 1 => addMask (countsAt x0 y0 k) (cmpMask (lanesAt x0 y0 k).1 (lanesAt x0 y0 k).2)

/-- The mask that iteration `k` of the loop computes for the batch `x0`, `y0`. -/
def cmpAt (x0 y0 : M256 ℚ) (k : Nat) : Nat :=
  cmpMask (lanesAt (toFloats x0) (toFloats y0) k).1 (lanesAt (toFloats x0) (toFloats y0) k).2

/-- What line 161 adds to lane `i` for the mask `cmp`. -/
def laneBit (cmp : Nat) (i : Fin 8) : Nat := ((cmp % 2 ^ 32) >>> (i : Nat)) &&& 1

end Main

/-! ## The orbit of a sample point -/

/-- The orbit `z_0 = c`, `z_(k+1) = z_k ^ 2 + c` in coordinates, in exact
arithmetic over any field. -/
def orbit {K : Type} [Field K] (x0 y0 : K) : Nat → K × K
  | 0 => (x0, y0)
  | k + 1 => ((orbit x0 y0 k).1 * (orbit x0 y0 k).1 - (orbit x0 y0 k).2 * (orbit x0 y0 k).2 + x0,
              2 * ((orbit x0 y0 k).1 * (orbit x0 y0 k).2) + y0)

/-- Squared modulus `x ^ 2 + y ^ 2`. -/
def sqrNorm {K : Type} [Field K] (p : K × K) : K := p.1 * p.1 + p.2 * p.2

/-- In exact arithmetic, the count is the least `k < MaxIterNo` whose orbit
point fails the test `x_k ^ 2 + y_k ^ 2 < SqrRMax`, or `MaxIterNo` when there is
no such `k`. -/
def IsEscapeTime (x0 y0 : ℚ) (count : Nat) : Prop :=
  (count < MaxIterNo ∧ SqrRMax ≤ sqrNorm (orbit x0 y0 count) ∧
      ∀ j, j < count → sqrNorm (orbit x0 y0 j) < SqrRMax) ∨
    (count = MaxIterNo ∧ ∀ k, k < MaxIterNo → sqrNorm (orbit x0 y0 k) < SqrRMax)

instance (x0 y0 : ℚ) (count : Nat) : Decidable (IsEscapeTime x0 y0 count) := by
  unfold IsEscapeTime
  infer_instance

/-- The same orbit as the scalar loop computes it, lines 151-152: every
product, difference and sum rounded to binary32. -/
def orbit32 (x0 y0 : F32) : Nat → F32 × F32
  | 0 => (x0, y0)
  | k + 1 =>
    ((orbit32 x0 y0 k).1 * (orbit32 x0 y0 k).1 - (orbit32 x0 y0 k).2 * (orbit32 x0 y0 k).2 + x0,
      2 * ((orbit32 x0 y0 k).1 * (orbit32 x0 y0 k).2) + y0)

/-- The value `sqrR` that the loop compares with `SqrRMax`, lines 143-147. -/
def sqrR32 (p : F32 × F32) : F32 := p.1 * p.1 + p.2 * p.2

/-- The count is the least `k < MaxIterNo` at which the binary32 orbit fails
the loop's own test, `sqrR >= SqrRMax` computed in binary32, or `MaxIterNo`
when there is no such `k`. -/
def IsEscapeTime32 (x0 y0 : F32) (count : Nat) : Prop :=
  (count < MaxIterNo ∧ sqrR32 (orbit32 x0 y0 count) ≥ F32.ofRat SqrRMax ∧
      ∀ j, j < count → ¬ sqrR32 (orbit32 x0 y0 j) ≥ F32.ofRat SqrRMax) ∨
    (count = MaxIterNo ∧ ∀ k, k < MaxIterNo → ¬ sqrR32 (orbit32 x0 y0 k) ≥ F32.ofRat SqrRMax)

instance (x0 y0 : F32) (count : Nat) : Decidable (IsEscapeTime32 x0 y0 count) := by
  unfold IsEscapeTime32
  infer_instance

/-! ## Pixels and the frame buffer -/

structure RGBQuad where
  r : Nat
  g : Nat
  b : Nat
  a : Nat
deriving DecidableEq

/-- Conversion of an integer argument to `unsigned char`. -/
def toUChar (z : Int) : Nat := (z % 256).toNat

/-- The 32-bit lane `v` read through `int *`. -/
def toInt32 (v : Nat) : Int :=
  if v % 2 ^ 32 < 2 ^ 31 then (v % 2 ^ 32 : Nat) else (v % 2 ^ 32 : Nat) - 2 ^ 32

/-- The function `setPixel` of both programs, as the value stored at `*pixel`;
`iterNo` is the `unsigned char` parameter.  The colour channels are the `int`
value `((iterNo + 1) % 2) * 255` narrowed to eight bits.  The alpha channel is
`sqrt(sqrt((iterNo + 1) / (MaxIterNo + 1))) * 255` in exact arithmetic,
truncated to an integer: the fourth root of `255 ^ 4 * (iterNo + 1) / (MaxIterNo + 1)`
rounded down, computed with the integer square root. -/
def setPixel (iterNo : Nat) : RGBQuad :=
  { r := (((iterNo + 1) % 2) * 255) % 256
    g := (((iterNo + 1) % 2) * 255) % 256
    b := (((iterNo + 1) % 2) * 255) % 256
    a := Nat.sqrt (Nat.sqrt (255 ^ 4 * (iterNo + 1) / (MaxIterNo + 1))) }

/-- One call `setPixel(&textureBuf[iY][iX], iterNo)`, with the sample point
`(x0, y0)` from which `iterNo` was computed. -/
structure Write where
  iY : Nat
  iX : Nat
  x0 : ℚ
  y0 : ℚ
  iterNo : Int

/-- The call of `setPixel` for pixel `(iY, iX)` whose count is the scalar count
of the sample point `(x0, y0)`. -/
def pixelWrite (iY iX : Nat) (x0 y0 : ℚ) : Write :=
  { iY := iY, iX := iX, x0 := x0, y0 := y0, iterNo := (Basic.iterNo x0 y0 : Nat) }

/-- Among the calls `ws`, pixel `(iY, iX)` is written, and every call that
writes it was computed from the sample point `p`. -/
def MapsTo (ws : List Write) (iY iX : Nat) (p : ℚ × ℚ) : Prop :=
  (∃ w, w ∈ ws ∧ w.iY = iY ∧ w.iX = iX) ∧
    ∀ w, w ∈ ws → w.iY = iY → w.iX = iX → (w.x0, w.y0) = p

instance (ws : List Write) (iY iX : Nat) (p : ℚ × ℚ) : Decidable (MapsTo ws iY iX p) := by
  unfold MapsTo
  infer_instance

/-- Among the calls `ws`, pixel `(iY, iX)` is written, and every call that
writes it hands the count `c` to `setPixel`. -/
def CountAt (ws : List Write) (iY iX : Nat) (c : Int) : Prop :=
  (∃ w, w ∈ ws ∧ w.iY = iY ∧ w.iX = iX) ∧
    ∀ w, w ∈ ws → w.iY = iY → w.iX = iX → w.iterNo = c

/-- The buffer `RGBQuad [WindowHeight][WindowWidth]`, addressed by row and
column; a column index past the row end is a cell outside the row. -/
abbrev TextureBuf := Nat → Nat → RGBQuad

def TextureBuf.store (buf : TextureBuf) (iY iX : Nat) (q : RGBQuad) : TextureBuf :=
  fun r c => if r = iY ∧ c = iX then q else buf r c

/-- The buffer after the calls of `setPixel` in `ws`, in order. -/
def applyWrites (buf : TextureBuf) (ws : List Write) : TextureBuf :=
  ws.foldl (fun b w => b.store w.iY w.iX (setPixel (toUChar w.iterNo))) buf

/-- The positions written by `ws`, in order. -/
def positions (ws : List Write) : List (Nat × Nat) := ws.map fun w => (w.iY, w.iX)

/-- The number of calls in `ws` that write pixel `(iY, iX)`. -/
def writeCount (ws : List Write) (iY iX : Nat) : Nat :=
  ws.countP fun w => decide (w.iY = iY ∧ w.iX = iX)

namespace Basic

/-- The loop over `iX` of lines 137-158, with `x0` carried from one column to
the next; the first argument is the number of columns still to do. -/
def colLoop (scale : ℚ) (iY : Nat) (y0 : ℚ) : Nat → Nat → ℚ → List Write
  | 0, _, _ => []
  | n + 1, iX, x0 =>
    { iY := iY, iX := iX, x0 := x0, y0 := y0, iterNo := (iterNo x0 y0 : Nat) } ::
      colLoop scale iY y0 n (iX + 1) (x0 + DeltaX * scale)

/-- The body of the loop over `iY`, lines 134-158. -/
def rowBody (xC yC scale : ℚ) (iY : Nat) : List Write :=
  let x0 := (RegionOfInterest.left + xC) * scale
  let y0 := (RegionOfInterest.top - iY * DeltaY + yC) * scale
  colLoop scale iY y0 WindowWidth 0 x0

/-- The calls of `setPixel` made by `renderTexture`, in order. -/
def writes (xC yC scale : ℚ) : List Write :=
  (List.range WindowHeight).flatMap (rowBody xC yC scale)

def renderTexture (textureBuf : TextureBuf) (xC yC scale : ℚ) : TextureBuf :=
  applyWrites textureBuf (writes xC yC scale)

end Basic

namespace Main

/-- The loop of lines 167-169 for one batch. -/
def laneWrites (iY iX : Nat) (x0 y0 : M256 ℚ) (iterNos : M256i) : List Write :=
  (List.finRange 8).map fun (i : Fin 8) =>
    { iY := iY, iX := iX + i.val, x0 := x0.get i, y0 := y0.get i,
      iterNo := toInt32 (iterNos.get i) }

/-- The loop over `iX` of lines 144-172, `iX += 8`, with the register `x0`
carried from one batch to the next; the first argument is the number of
batches still to do. -/
def colLoop (scale : ℚ) (iY : Nat) (y0 : M256 ℚ) : Nat → Nat → M256 ℚ → List Write
  | 0, _, _ => []
  | n + 1, iX, x0 =>
    laneWrites iY iX x0 y0 (iterNos x0 y0) ++
      colLoop scale iY y0 n (iX + 8) (_mm256_add_ps x0 (_mm256_set1_ps (DeltaX * 8 * scale)))

/-- The body of the loop over `iY`, lines 140-172; the loop over `iX` runs
while `iX < WindowWidth`, that is `(WindowWidth + 7) / 8` times. -/
def rowBody (xC yC scale : ℚ) (iY : Nat) : List Write :=
  let deltaXSeq := _mm256_mul_ps idxSeq (_mm256_set1_ps DeltaX)
  let x0 := _mm256_add_ps (_mm256_set1_ps ((RegionOfInterest.left + xC) * scale)) deltaXSeq
  let y0 := _mm256_set1_ps ((RegionOfInterest.top - iY * DeltaY + yC) * scale)
  colLoop scale iY y0 ((WindowWidth + 7) / 8) 0 x0

/-- The calls of `setPixel` made by `renderTexture`, in order. -/
def writes (xC yC scale : ℚ) : List Write :=
  (List.range WindowHeight).flatMap (rowBody xC yC scale)

def renderTexture (textureBuf : TextureBuf) (xC yC scale : ℚ) : TextureBuf :=
  applyWrites textureBuf (writes xC yC scale)

/-- The register `x0` after `b` executions of line 171, starting from `x0`. -/
def advance (scale : ℚ) : Nat → M256 ℚ → M256 ℚ
  | 0, x0 => x0
  | b + 1, x0 => advance scale b (_mm256_add_ps x0 (_mm256_set1_ps (DeltaX * 8 * scale)))

/-- The register `x0` at the start of batch `b` of a row, lines 140-141 and 171. -/
def batchX0 (xC scale : ℚ) (b : Nat) : M256 ℚ :=
  advance scale b
    (_mm256_add_ps (_mm256_set1_ps ((RegionOfInterest.left + xC) * scale))
      (_mm256_mul_ps idxSeq (_mm256_set1_ps DeltaX)))

/-- The register `y0` of row `iY`, line 142. -/
def rowY0 (yC scale : ℚ) (iY : Nat) : M256 ℚ :=
  _mm256_set1_ps ((RegionOfInterest.top - iY * DeltaY + yC) * scale)

/-- The call of `setPixel` for lane `i` of batch `b` in row `iY`, with the
registers `x0` and `y0` of that batch. -/
def batchWrite (iY b : Nat) (x0 y0 : M256 ℚ) (i : Fin 8) : Write :=
  { iY := iY, iX := 8 * b + i.val, x0 := x0.get i, y0 := y0.get i,
    iterNo := toInt32 ((iterNos x0 y0).get i) }

end Main

/-- The alpha values of the counts `0, ..., 254`, in order; the data against
which the distance of the exact alpha value from the integers is checked. -/
def alphaTable : List Nat :=
  [63, 75, 83, 90, 95, 99, 103, 107, 110, 113, 116, 118, 121, 123, 125, 127,
   129, 131, 133, 134, 136, 138, 139, 141, 142, 143, 145, 146, 147, 149, 150, 151,
   152, 153, 155, 156, 157, 158, 159, 160, 161, 162, 163, 164, 165, 166, 166, 167,
   168, 169, 170, 171, 172, 172, 173, 174, 175, 175, 176, 177, 178, 178, 179, 180,
   181, 181, 182, 183, 183, 184, 185, 185, 186, 186, 187, 188, 188, 189, 190, 190,
   191, 191, 192, 192, 193, 194, 194, 195, 195, 196, 196, 197, 197, 198, 199, 199,
   200, 200, 201, 201, 202, 202, 203, 203, 204, 204, 205, 205, 205, 206, 206, 207,
   207, 208, 208, 209, 209, 210, 210, 210, 211, 211, 212, 212, 213, 213, 214, 214,
   214, 215, 215, 216, 216, 216, 217, 217, 218, 218, 218, 219, 219, 220, 220, 220,
   221, 221, 221, 222, 222, 223, 223, 223, 224, 224, 224, 225, 225, 226, 226, 226,
   227, 227, 227, 228, 228, 228, 229, 229, 229, 230, 230, 230, 231, 231, 231, 232,
   232, 232, 233, 233, 233, 234, 234, 234, 235, 235, 235, 236, 236, 236, 236, 237,
   237, 237, 238, 238, 238, 239, 239, 239, 240, 240, 240, 240, 241, 241, 241, 242,
   242, 242, 242, 243, 243, 243, 244, 244, 244, 244, 245, 245, 245, 246, 246, 246,
   246, 247, 247, 247, 247, 248, 248, 248, 249, 249, 249, 249, 250, 250, 250, 250,
   251, 251, 251, 251, 252, 252, 252, 252, 253, 253, 253, 253, 254, 254, 254]

/-- With `a` as alpha for `count`, the exact value `255 * ((count + 1) / 256) ^ (1/4)`
lies in `[a + 1/1024, a + 1 - 1/1024]` (fourth powers, denominators cleared). -/
def AlphaMargin (count a : Nat) : Prop :=
  (1024 * a + 1) ^ 4 * 256 ≤ (1024 * 255) ^ 4 * (count + 1) ∧
    (1024 * 255) ^ 4 * (count + 1) ≤ (1024 * (a + 1) - 1) ^ 4 * 256

instance (count a : Nat) : Decidable (AlphaMargin count a) := by
  unfold AlphaMargin
  infer_instance

/-! ## The orbit in exact arithmetic: escape is absorbing -/

theorem escape_step_small {K : Type} [LinearOrderedField K] (n m t : K) (hn : 4 ≤ n)
    (hm0 : 0 ≤ m) (hm : m ≤ 4) (ht : t ^ 2 ≤ n ^ 2 * m) : 4 ≤ n ^ 2 + 2 * t + m := by
  by_contra h
  push_neg at h
  have h2 : 0 < n ^ 2 + m - 4 := by nlinarith
  have h3 : (n ^ 2 + m - 4) ^ 2 < (2 * t) ^ 2 := by nlinarith
  have h4 : 4 * (n ^ 2 * m) ≤ (n ^ 2 + m - 4) ^ 2 := by
    have hu : 12 ≤ n ^ 2 - m := by nlinarith
    nlinarith [mul_nonneg (sub_nonneg.2 hu) (by linarith : (0 : K) ≤ n ^ 2 - m + 4)]
  nlinarith

theorem escape_step_large {K : Type} [LinearOrderedField K] (n m t : K) (hm : 4 ≤ m)
    (hn : m ≤ n) (ht : t ^ 2 ≤ n ^ 2 * m) : m ≤ n ^ 2 + 2 * t + m := by
  by_contra h
  push_neg at h
  have hn0 : 0 < n := by linarith
  have h1 : n ^ 2 < -(2 * t) := by linarith
  have h2 : (n ^ 2) ^ 2 < (2 * t) ^ 2 := by nlinarith [sq_nonneg n]
  have h3 : 4 * m ≤ n ^ 2 := by nlinarith
  have h4 : n ^ 2 * (4 * m) ≤ n ^ 2 * n ^ 2 := mul_le_mul_of_nonneg_left h3 (sq_nonneg n)
  nlinarith

theorem sqrNorm_nonneg {K : Type} [LinearOrderedField K] (p : K × K) : 0 ≤ sqrNorm p := by
  unfold sqrNorm
  nlinarith [mul_self_nonneg p.1, mul_self_nonneg p.2]

theorem orbit_zero {K : Type} [Field K] (x0 y0 : K) : orbit x0 y0 0 = (x0, y0) := rfl

theorem orbit_succ {K : Type} [Field K] (x0 y0 : K) (k : Nat) :
    orbit x0 y0 (k + 1) =
      ((orbit x0 y0 k).1 * (orbit x0 y0 k).1 - (orbit x0 y0 k).2 * (orbit x0 y0 k).2 + x0,
        2 * ((orbit x0 y0 k).1 * (orbit x0 y0 k).2) + y0) := rfl

/-- One step of the orbit, expanded around the squared moduli of `z` and `c`. -/
theorem sqrNorm_step {K : Type} [Field K] (x y x0 y0 : K) :
    sqrNorm (x * x - y * y + x0, 2 * (x * y) + y0) =
      (sqrNorm (x, y)) ^ 2 + 2 * ((x * x - y * y) * x0 + 2 * (x * y) * y0) + sqrNorm (x0, y0) := by
  simp only [sqrNorm]
  ring

/-- Cauchy-Schwarz for the cross term of one step. -/
theorem cross_term_sq_le {K : Type} [LinearOrderedField K] (x y x0 y0 : K) :
    ((x * x - y * y) * x0 + 2 * (x * y) * y0) ^ 2 ≤ (sqrNorm (x, y)) ^ 2 * sqrNorm (x0, y0) := by
  simp only [sqrNorm]
  nlinarith [sq_nonneg ((x * x - y * y) * y0 - 2 * (x * y) * x0)]

theorem step_escaped_small {K : Type} [LinearOrderedField K] (x y x0 y0 : K)
    (hc : sqrNorm (x0, y0) ≤ 4) (hz : 4 ≤ sqrNorm (x, y)) :
    4 ≤ sqrNorm (x * x - y * y + x0, 2 * (x * y) + y0) := by
  rw [sqrNorm_step]
  exact escape_step_small _ _ _ hz (sqrNorm_nonneg _) hc (cross_term_sq_le x y x0 y0)

theorem step_escaped_large {K : Type} [LinearOrderedField K] (x y x0 y0 : K)
    (hc : 4 ≤ sqrNorm (x0, y0)) (hz : sqrNorm (x0, y0) ≤ sqrNorm (x, y)) :
    sqrNorm (x0, y0) ≤ sqrNorm (x * x - y * y + x0, 2 * (x * y) + y0) := by
  rw [sqrNorm_step]
  exact escape_step_large _ _ _ hc hz (cross_term_sq_le x y x0 y0)

/-- When `|c| ≥ 2` the orbit never comes closer to the origin than `c`. -/
theorem orbit_ge_start {K : Type} [LinearOrderedField K] (x0 y0 : K)
    (hc : 4 ≤ sqrNorm (x0, y0)) (k : Nat) : sqrNorm (x0, y0) ≤ sqrNorm (orbit x0 y0 k) := by
  induction k with
  | zero => exact le_refl _
  | succ k ih =>
    rw [orbit_succ]
    exact step_escaped_large _ _ x0 y0 hc ih

theorem orbit_absorbing_succ {K : Type} [LinearOrderedField K] (x0 y0 : K) (k : Nat)
    (h : 4 ≤ sqrNorm (orbit x0 y0 k)) : 4 ≤ sqrNorm (orbit x0 y0 (k + 1)) := by
  rcases le_total (sqrNorm (x0, y0)) 4 with hc | hc
  · rw [orbit_succ]
    exact step_escaped_small _ _ x0 y0 hc h
  · exact le_trans hc (orbit_ge_start x0 y0 hc (k + 1))

/-- Over any ordered field, an orbit that has left the disc of radius 2 stays outside. -/
theorem orbit_absorbing {K : Type} [LinearOrderedField K] (x0 y0 : K) (k j : Nat)
    (hkj : k ≤ j) (h : 4 ≤ sqrNorm (orbit x0 y0 k)) : 4 ≤ sqrNorm (orbit x0 y0 j) := by
  induction j, hkj using Nat.le_induction with
  | base => exact h
  | succ j _ ih => exact orbit_absorbing_succ x0 y0 j ih

/-! ## The scalar loop in binary32 -/

theorem orbit32_zero (x0 y0 : F32) : orbit32 x0 y0 0 = (x0, y0) := rfl

theorem orbit32_succ (x0 y0 : F32) (k : Nat) :
    orbit32 x0 y0 (k + 1) =
      ((orbit32 x0 y0 k).1 * (orbit32 x0 y0 k).1 - (orbit32 x0 y0 k).2 * (orbit32 x0 y0 k).2 + x0,
        2 * ((orbit32 x0 y0 k).1 * (orbit32 x0 y0 k).2) + y0) := rfl

theorem Basic.iterLoop_escaped (x0 y0 x y : F32) (n c : Nat)
    (h : sqrR32 (x, y) ≥ F32.ofRat SqrRMax) : Basic.iterLoop x0 y0 (n + 1) x y c = c := by
  simp only [Basic.iterLoop]
  rw [if_pos]
  exact h

theorem Basic.iterLoop_step (x0 y0 x y : F32) (n c : Nat)
    (h : ¬ sqrR32 (x, y) ≥ F32.ofRat SqrRMax) :
    Basic.iterLoop x0 y0 (n + 1) x y c =
      Basic.iterLoop x0 y0 n (x * x - y * y + x0) (2 * (x * y) + y0) (c + 1) := by
  simp only [Basic.iterLoop]
  rw [if_neg]
  exact h

theorem Basic.iterLoop_spec (x0 y0 : F32) (n : Nat) : ∀ k c : Nat,
    c ≤ Basic.iterLoop x0 y0 n (orbit32 x0 y0 k).1 (orbit32 x0 y0 k).2 c ∧
    Basic.iterLoop x0 y0 n (orbit32 x0 y0 k).1 (orbit32 x0 y0 k).2 c ≤ c + n ∧
    (∀ j, j < Basic.iterLoop x0 y0 n (orbit32 x0 y0 k).1 (orbit32 x0 y0 k).2 c - c →
      ¬ sqrR32 (orbit32 x0 y0 (k + j)) ≥ F32.ofRat SqrRMax) ∧
    (Basic.iterLoop x0 y0 n (orbit32 x0 y0 k).1 (orbit32 x0 y0 k).2 c < c + n →
      sqrR32 (orbit32 x0 y0
        (k + (Basic.iterLoop x0 y0 n (orbit32 x0 y0 k).1 (orbit32 x0 y0 k).2 c - c))) ≥
          F32.ofRat SqrRMax) := by
  induction n with
  | zero =>
    intro k c
    simp [Basic.iterLoop]
  | succ n ih =>
    intro k c
    by_cases hesc : sqrR32 (orbit32 x0 y0 k) ≥ F32.ofRat SqrRMax
    · rw [Basic.iterLoop_escaped x0 y0 _ _ n c hesc]
      simpa using hesc
    · have hr : Basic.iterLoop x0 y0 (n + 1) (orbit32 x0 y0 k).1 (orbit32 x0 y0 k).2 c =
          Basic.iterLoop x0 y0 n (orbit32 x0 y0 (k + 1)).1 (orbit32 x0 y0 (k + 1)).2 (c + 1) :=
        Basic.iterLoop_step x0 y0 _ _ n c hesc
      rw [hr]
      obtain ⟨h1, h2, h3, h4⟩ := ih (k + 1) (c + 1)
      refine ⟨by omega, by omega, ?_, ?_⟩
      · intro j hj
        rcases Nat.eq_zero_or_pos j with hj0 | hj0
        · subst hj0
          simpa using hesc
        · have := h3 (j - 1) (by omega)
          have e : k + 1 + (j - 1) = k + j := by omega
          rwa [e] at this
      · intro hlt
        have := h4 (by omega)
        have e : k + 1 + (Basic.iterLoop x0 y0 n (orbit32 x0 y0 (k + 1)).1
            (orbit32 x0 y0 (k + 1)).2 (c + 1) - (c + 1)) =
            k + (Basic.iterLoop x0 y0 n (orbit32 x0 y0 (k + 1)).1
            (orbit32 x0 y0 (k + 1)).2 (c + 1) - c) := by omega
        rwa [e] at this

theorem Basic.iterNo_eq (x0 y0 : ℚ) :
    Basic.iterNo x0 y0 = Basic.iterLoop (F32.ofRat x0) (F32.ofRat y0) MaxIterNo
      (orbit32 (F32.ofRat x0) (F32.ofRat y0) 0).1
      (orbit32 (F32.ofRat x0) (F32.ofRat y0) 0).2 0 := by
  simp only [orbit32_zero]
  rfl

theorem Basic.iterNo_le (x0 y0 : ℚ) : Basic.iterNo x0 y0 ≤ MaxIterNo := by
  have h := (Basic.iterLoop_spec (F32.ofRat x0) (F32.ofRat y0) MaxIterNo 0 0).2.1
  rw [Nat.zero_add] at h
  rw [Basic.iterNo_eq]
  exact h

theorem Basic.iterNo_lt_of_lt (x0 y0 : ℚ) (j : Nat) (hj : j < Basic.iterNo x0 y0) :
    ¬ sqrR32 (orbit32 (F32.ofRat x0) (F32.ofRat y0) j) ≥ F32.ofRat SqrRMax := by
  have h := (Basic.iterLoop_spec (F32.ofRat x0) (F32.ofRat y0) MaxIterNo 0 0).2.2.1 j
  rw [Nat.sub_zero, Nat.zero_add] at h
  rw [Basic.iterNo_eq] at hj
  exact h hj

theorem Basic.iterNo_escaped (x0 y0 : ℚ) (h : Basic.iterNo x0 y0 < MaxIterNo) :
    sqrR32 (orbit32 (F32.ofRat x0) (F32.ofRat y0) (Basic.iterNo x0 y0)) ≥ F32.ofRat SqrRMax := by
  have hs := (Basic.iterLoop_spec (F32.ofRat x0) (F32.ofRat y0) MaxIterNo 0 0).2.2.2
  rw [Nat.sub_zero, Nat.zero_add, Nat.zero_add] at hs
  rw [Basic.iterNo_eq] at h ⊢
  exact hs h

theorem Basic.isEscapeTime32 (x0 y0 : ℚ) :
    IsEscapeTime32 (F32.ofRat x0) (F32.ofRat y0) (Basic.iterNo x0 y0) := by
  rcases Nat.lt_or_ge (Basic.iterNo x0 y0) MaxIterNo with h | h
  · exact Or.inl ⟨h, Basic.iterNo_escaped x0 y0 h, Basic.iterNo_lt_of_lt x0 y0⟩
  · have e : Basic.iterNo x0 y0 = MaxIterNo := le_antisymm (Basic.iterNo_le x0 y0) h
    refine Or.inr ⟨e, fun k hk => Basic.iterNo_lt_of_lt x0 y0 k ?_⟩
    rw [e]
    exact hk

theorem isEscapeTime32_unique {x0 y0 : F32} {c d : Nat} (hc : IsEscapeTime32 x0 y0 c)
    (hd : IsEscapeTime32 x0 y0 d) : c = d := by
  rcases hc with ⟨hc1, hc2, hc3⟩ | ⟨hc1, hc2⟩ <;> rcases hd with ⟨hd1, hd2, hd3⟩ | ⟨hd1, hd2⟩
  · rcases Nat.lt_trichotomy c d with h | h | h
    · exact absurd hc2 (hd3 c h)
    · exact h
    · exact absurd hd2 (hc3 d h)
  · exact absurd hc2 (hd2 c hc1)
  · exact absurd hd2 (hc2 d hd1)
  · rw [hc1, hd1]

theorem Basic.iterNo_eq_zero (x0 y0 : ℚ)
    (h : sqrR32 (F32.ofRat x0, F32.ofRat y0) ≥ F32.ofRat SqrRMax) : Basic.iterNo x0 y0 = 0 := by
  by_contra hne
  have hpos : 0 < Basic.iterNo x0 y0 := Nat.pos_of_ne_zero hne
  exact Basic.iterNo_lt_of_lt x0 y0 0 hpos h


theorem Basic.iterNo_origin : Basic.iterNo 0 0 = MaxIterNo := by decide!

/-! ## The batched loop, lane by lane -/

theorem bit_of_mask (f : Fin 8 → Bool) (i : Fin 8) :
    Main.laneBit (((f 0).toNat + (f 1).toNat * 2 + (f 2).toNat * 4 + (f 3).toNat * 8 +
      (f 4).toNat * 16 + (f 5).toNat * 32 + (f 6).toNat * 64 + (f 7).toNat * 128) % 256) i =
      (f i).toNat := by
  have h0 := Bool.toNat_le (f 0)
  have h1 := Bool.toNat_le (f 1)
  have h2 := Bool.toNat_le (f 2)
  have h3 := Bool.toNat_le (f 3)
  have h4 := Bool.toNat_le (f 4)
  have h5 := Bool.toNat_le (f 5)
  have h6 := Bool.toNat_le (f 6)
  have h7 := Bool.toNat_le (f 7)
  simp only [Main.laneBit, Nat.shiftRight_eq_div_pow, Nat.and_one_is_mod]
  fin_cases i <;> simp <;> omega

theorem Main.laneBit_movemask (m : Mathlib.Vector Bool 8) (i : Fin 8) :
    Main.laneBit (_mm256_movemask_ps m % 256) i = (m.get i).toNat :=
  bit_of_mask m.get i

theorem Main.laneBit_le_one (cmp : Nat) (i : Fin 8) : Main.laneBit cmp i ≤ 1 := by
  simp only [Main.laneBit, Nat.and_one_is_mod]
  omega

theorem Main.laneBit_zero (i : Fin 8) : Main.laneBit 0 i = 0 := by
  simp [Main.laneBit]

theorem set1_ps_get {α : Type} (a : α) (i : Fin 8) : (_mm256_set1_ps a).get i = a :=
  Mathlib.Vector.get_replicate a i

theorem set1_epi32_get (a : Nat) (i : Fin 8) : (_mm256_set1_epi32 a).get i = a % 2 ^ 32 :=
  Mathlib.Vector.get_replicate _ i

theorem setzero_get (i : Fin 8) : (_mm256_setzero_si256).get i = 0 :=
  Mathlib.Vector.get_replicate 0 i

theorem Main.addMask_get (iterNos : M256i) (cmp : Nat) (i : Fin 8) :
    (Main.addMask iterNos cmp).get i = (iterNos.get i + Main.laneBit cmp i) % 2 ^ 32 := by
  have hi : (i : Nat) < 32 := lt_trans i.isLt (by norm_num)
  simp only [Main.addMask, _mm256_add_epi32, _mm256_and_si256, _mm256_srlv_epi32,
    Main.bitPosSeq, Main.bitMask, Main.laneBit, Mathlib.Vector.get_map₂, set1_epi32_get,
    Mathlib.Vector.get_ofFn, if_pos hi]
  norm_num

/-- Bit `i` of the mask is the test of lane `i` alone. -/
theorem Main.laneBit_cmpMask (x y : M256 F32) (i : Fin 8) :
    Main.laneBit (Main.cmpMask x y) i =
      (decide (sqrR32 (x.get i, y.get i) < F32.ofRat SqrRMax)).toNat := by
  simp only [Main.cmpMask, Main.laneBit_movemask, _mm256_cmp_ps_LT_OS, _mm256_add_ps,
    _mm256_mul_ps, Main.sqrRMax, set1_ps_get, Mathlib.Vector.get_map₂, sqrR32]

theorem Main.nextX_get (x0 x y : M256 F32) (i : Fin 8) :
    (Main.nextX x0 x y).get i = x.get i * x.get i - y.get i * y.get i + x0.get i := by
  simp only [Main.nextX, _mm256_add_ps, _mm256_sub_ps, _mm256_mul_ps, Mathlib.Vector.get_map₂]

theorem Main.nextY_get (y0 x y : M256 F32) (i : Fin 8) :
    (Main.nextY y0 x y).get i = F32.fma 2 (x.get i * y.get i) (y0.get i) := by
  simp only [Main.nextY, _mm256_fmadd_ps, _mm256_mul_ps, Main.twoFactor, set1_ps_get,
    Mathlib.Vector.get_map₂, Mathlib.Vector.get_ofFn]

theorem Main.iterLoop_exit (x0 y0 x y : M256 F32) (n : Nat) (iterNos : M256i)
    (h : Main.cmpMask x y = 0) : Main.iterLoop x0 y0 (n + 1) x y iterNos = iterNos := by
  simp only [Main.iterLoop]
  rw [if_pos h]

theorem Main.iterLoop_continue (x0 y0 x y : M256 F32) (n : Nat) (iterNos : M256i)
    (h : Main.cmpMask x y ≠ 0) :
    Main.iterLoop x0 y0 (n + 1) x y iterNos =
      Main.iterLoop x0 y0 n (Main.nextX x0 x y) (Main.nextY y0 x y)
        (Main.addMask iterNos (Main.cmpMask x y)) := by
  simp only [Main.iterLoop]
  rw [if_neg h]

/-- A lane gains at most 1 in each iteration of the loop. -/
theorem Main.iterLoop_get_le (x0 y0 : M256 F32) (i : Fin 8) (n : Nat) :
    ∀ (x y : M256 F32) (iterNos : M256i),
      (Main.iterLoop x0 y0 n x y iterNos).get i ≤ iterNos.get i + n := by
  induction n with
  | zero =>
    intro x y iterNos
    exact le_refl _
  | succ n ih =>
    intro x y iterNos
    by_cases h : Main.cmpMask x y = 0
    · rw [Main.iterLoop_exit x0 y0 x y n iterNos h]
      omega
    · rw [Main.iterLoop_continue x0 y0 x y n iterNos h]
      have h1 := ih (Main.nextX x0 x y) (Main.nextY y0 x y)
        (Main.addMask iterNos (Main.cmpMask x y))
      have h2 := Main.addMask_get iterNos (Main.cmpMask x y) i
      have h3 := Main.laneBit_le_one (Main.cmpMask x y) i
      have h4 : (iterNos.get i + Main.laneBit (Main.cmpMask x y) i) % 2 ^ 32 ≤
          iterNos.get i + Main.laneBit (Main.cmpMask x y) i := Nat.mod_le _ _
      omega

theorem Main.iterNos_get_le (x0 y0 : M256 ℚ) (i : Fin 8) :
    (Main.iterNos x0 y0).get i ≤ MaxIterNo := by
  have h := Main.iterLoop_get_le (toFloats x0) (toFloats y0) i MaxIterNo (toFloats x0)
    (toFloats y0) _mm256_setzero_si256
  rw [setzero_get, Nat.zero_add] at h
  exact h

theorem F32.ofRat_zero : F32.ofRat 0 = F32.fin 0 (-149) := by decide!

theorem F32.ofRat_SqrRMax : F32.ofRat SqrRMax = F32.fin 8388608 (-21) := by decide!

/-- A lane that holds the sample point `(0, 0)` stays at `(0, 0)`, passes the
test in every iteration and is counted in each of them. -/
theorem Main.iterLoop_zero_lane (x0 y0 : M256 F32) (i : Fin 8)
    (hx0 : x0.get i = F32.fin 0 (-149)) (hy0 : y0.get i = F32.fin 0 (-149)) (n : Nat) :
    ∀ (x y : M256 F32) (iterNos : M256i), x.get i = F32.fin 0 (-149) →
      y.get i = F32.fin 0 (-149) → iterNos.get i + n < 2 ^ 32 →
      (Main.iterLoop x0 y0 n x y iterNos).get i = iterNos.get i + n := by
  induction n with
  | zero =>
    intro x y iterNos _ _ _
    rfl
  | succ n ih =>
    intro x y iterNos hx hy hlt
    have hbit : Main.laneBit (Main.cmpMask x y) i = 1 := by
      rw [Main.laneBit_cmpMask, hx, hy, F32.ofRat_SqrRMax]
      decide!
    have hne : Main.cmpMask x y ≠ 0 := by
      intro h0
      rw [h0, Main.laneBit_zero] at hbit
      exact absurd hbit (by decide)
    rw [Main.iterLoop_continue x0 y0 x y n iterNos hne]
    have hx' : (Main.nextX x0 x y).get i = F32.fin 0 (-149) := by
      rw [Main.nextX_get, hx, hy, hx0]
      decide!
    have hy' : (Main.nextY y0 x y).get i = F32.fin 0 (-149) := by
      rw [Main.nextY_get, hx, hy, hy0]
      decide!
    have hacc : (Main.addMask iterNos (Main.cmpMask x y)).get i = iterNos.get i + 1 := by
      rw [Main.addMask_get, hbit]
      exact Nat.mod_eq_of_lt (by omega)
    rw [ih _ _ _ hx' hy' (by rw [hacc]; omega), hacc]
    omega

theorem Main.iterNos_zero_lane (x0 y0 : M256 ℚ) (i : Fin 8) (hx : x0.get i = 0)
    (hy : y0.get i = 0) : (Main.iterNos x0 y0).get i = MaxIterNo := by
  have hx' : (toFloats x0).get i = F32.fin 0 (-149) := by
    rw [toFloats, Mathlib.Vector.get_map, hx, F32.ofRat_zero]
  have hy' : (toFloats y0).get i = F32.fin 0 (-149) := by
    rw [toFloats, Mathlib.Vector.get_map, hy, F32.ofRat_zero]
  have h := Main.iterLoop_zero_lane (toFloats x0) (toFloats y0) i hx' hy' MaxIterNo
    (toFloats x0) (toFloats y0) _mm256_setzero_si256 hx' hy'
  rw [setzero_get, Nat.zero_add] at h
  exact h (by decide)


/-- While no mask is 0, the loop reaches iteration `k` with the registers
`lanesAt` and the counters `countsAt`. -/
theorem Main.iterLoop_reaches (x0 y0 : M256 F32) (k : Nat) :
    ∀ n : Nat,
      (∀ j, j < k → Main.cmpMask (Main.lanesAt x0 y0 j).1 (Main.lanesAt x0 y0 j).2 ≠ 0) →
      Main.iterLoop x0 y0 (k + n) x0 y0 _mm256_setzero_si256 =
        Main.iterLoop x0 y0 n (Main.lanesAt x0 y0 k).1 (Main.lanesAt x0 y0 k).2
          (Main.countsAt x0 y0 k) := by
  induction k with
  | zero =>
    intro n _
    rw [Nat.zero_add]
    rfl
  | succ k ih =>
    intro n h
    have e : k + 1 + n = k + (n + 1) := by omega
    rw [e, ih (n + 1) (fun j hj => h j (Nat.lt_succ_of_lt hj)),
      Main.iterLoop_continue _ _ _ _ _ _ (h k (Nat.lt_succ_self k))]
    rfl

/-! ## Closed forms of the render loops -/

theorem scalar_colLoop_eq (scale : ℚ) (iY : Nat) (y0 : ℚ) (n : Nat) : ∀ (iX : Nat) (x0 : ℚ),
    Basic.colLoop scale iY y0 n iX x0 =
      (List.range n).map fun k => pixelWrite iY (iX + k) (x0 + k * (DeltaX * scale)) y0 := by
  induction n with
  | zero => intro iX x0; rfl
  | succ n ih =>
    intro iX x0
    rw [Basic.colLoop, ih, List.range_succ_eq_map, List.map_cons, List.map_map]
    congr 1
    · simp [pixelWrite]
    · apply List.map_congr_left
      intro k _
      have e1 : iX + 1 + k = iX + (k + 1) := by omega
      have e2 : x0 + DeltaX * scale + (k : ℚ) * (DeltaX * scale) =
          x0 + ((k + 1 : Nat) : ℚ) * (DeltaX * scale) := by push_cast; ring
      simp only [Function.comp, Nat.succ_eq_add_one, e1, e2]

theorem scalar_mem_writes (xC yC scale : ℚ) (w : Write) :
    w ∈ Basic.writes xC yC scale ↔ ∃ iY, iY < WindowHeight ∧ ∃ iX, iX < WindowWidth ∧
      w = pixelWrite iY iX ((RegionOfInterest.left + xC) * scale + iX * (DeltaX * scale))
        ((RegionOfInterest.top - iY * DeltaY + yC) * scale) := by
  simp only [Basic.writes, Basic.rowBody, scalar_colLoop_eq, List.mem_flatMap, List.mem_map,
    List.mem_range, Nat.zero_add]
  constructor
  · rintro ⟨iY, hY, iX, hX, rfl⟩
    exact ⟨iY, hY, iX, hX, rfl⟩
  · rintro ⟨iY, hY, iX, hX, rfl⟩
    exact ⟨iY, hY, iX, hX, rfl⟩

theorem toInt32_of_le (v : Nat) (h : v ≤ MaxIterNo) : toInt32 v = (v : Int) := by
  have hM : MaxIterNo = 255 := rfl
  have h1 : v % 2 ^ 32 = v := Nat.mod_eq_of_lt (by omega)
  have h2 : v < 2 ^ 31 := by omega
  unfold toInt32
  rw [h1, if_pos h2]

theorem Main.advance_get (scale : ℚ) (b : Nat) : ∀ (x0 : M256 ℚ) (i : Fin 8),
    (Main.advance scale b x0).get i = x0.get i + (b : ℚ) * (DeltaX * 8 * scale) := by
  induction b with
  | zero =>
    intro x0 i
    simp [Main.advance]
  | succ b ih =>
    intro x0 i
    rw [Main.advance, ih]
    simp only [_mm256_add_ps, Mathlib.Vector.get_map₂, set1_ps_get]
    push_cast
    ring

theorem Main.batchX0_get (xC scale : ℚ) (b : Nat) (i : Fin 8) :
    (Main.batchX0 xC scale b).get i =
      (RegionOfInterest.left + xC) * scale + (i.val : ℚ) * DeltaX +
        (b : ℚ) * (DeltaX * 8 * scale) := by
  rw [Main.batchX0, Main.advance_get]
  simp only [_mm256_add_ps, _mm256_mul_ps, Mathlib.Vector.get_map₂, set1_ps_get, Main.idxSeq,
    Mathlib.Vector.get_ofFn]

theorem Main.rowY0_get (yC scale : ℚ) (iY : Nat) (i : Fin 8) :
    (Main.rowY0 yC scale iY).get i = (RegionOfInterest.top - iY * DeltaY + yC) * scale :=
  set1_ps_get _ i

theorem Main.laneWrites_eq (iY b : Nat) (x0 y0 : M256 ℚ) :
    Main.laneWrites iY (8 * b) x0 y0 (Main.iterNos x0 y0) =
      (List.finRange 8).map (Main.batchWrite iY b x0 y0) := rfl

theorem batched_colLoop_eq (scale : ℚ) (iY : Nat) (y0 : M256 ℚ) (n : Nat) :
    ∀ (b0 : Nat) (x0 : M256 ℚ),
      Main.colLoop scale iY y0 n (8 * b0) x0 =
        (List.range n).flatMap fun b =>
          (List.finRange 8).map (Main.batchWrite iY (b0 + b) (Main.advance scale b x0) y0) := by
  induction n with
  | zero => intro b0 x0; rfl
  | succ n ih =>
    intro b0 x0
    have e8 : 8 * b0 + 8 = 8 * (b0 + 1) := by ring
    rw [Main.colLoop, e8, ih, Main.laneWrites_eq, List.range_succ_eq_map, List.flatMap_cons,
      List.flatMap_map]
    have hrest : ∀ b : Nat,
        (List.finRange 8).map (Main.batchWrite iY (b0 + 1 + b)
          (Main.advance scale b (_mm256_add_ps x0 (_mm256_set1_ps (DeltaX * 8 * scale)))) y0) =
        (List.finRange 8).map (Main.batchWrite iY (b0 + Nat.succ b)
          (Main.advance scale (Nat.succ b) x0) y0) := by
      intro b
      have e : b0 + 1 + b = b0 + Nat.succ b := by omega
      rw [e]
      rfl
    simp only [hrest]
    rfl

theorem batched_writes_eq (xC yC scale : ℚ) :
    Main.writes xC yC scale =
      (List.range WindowHeight).flatMap fun iY =>
        (List.range ((WindowWidth + 7) / 8)).flatMap fun b =>
          (List.finRange 8).map
            (Main.batchWrite iY b (Main.batchX0 xC scale b) (Main.rowY0 yC scale iY)) := by
  have hrow : Main.rowBody xC yC scale = fun iY =>
      (List.range ((WindowWidth + 7) / 8)).flatMap fun b =>
        (List.finRange 8).map
          (Main.batchWrite iY b (Main.batchX0 xC scale b) (Main.rowY0 yC scale iY)) := by
    funext iY
    have h := batched_colLoop_eq scale iY (Main.rowY0 yC scale iY) ((WindowWidth + 7) / 8) 0
      (_mm256_add_ps (_mm256_set1_ps ((RegionOfInterest.left + xC) * scale))
        (_mm256_mul_ps Main.idxSeq (_mm256_set1_ps DeltaX)))
    simp only [Nat.zero_add, Nat.mul_zero] at h
    exact h
  rw [Main.writes, hrow]

theorem batched_mem_writes (xC yC scale : ℚ) (w : Write) :
    w ∈ Main.writes xC yC scale ↔ ∃ iY, iY < WindowHeight ∧ ∃ b, b < (WindowWidth + 7) / 8 ∧
      ∃ i : Fin 8, w = Main.batchWrite iY b (Main.batchX0 xC scale b) (Main.rowY0 yC scale iY) i := by
  rw [batched_writes_eq]
  constructor
  · intro h
    obtain ⟨iY, hY, h⟩ := List.mem_flatMap.1 h
    obtain ⟨b, hb, h⟩ := List.mem_flatMap.1 h
    obtain ⟨i, _, h⟩ := List.mem_map.1 h
    exact ⟨iY, List.mem_range.1 hY, b, List.mem_range.1 hb, i, h.symm⟩
  · rintro ⟨iY, hY, b, hb, i, rfl⟩
    exact List.mem_flatMap.2 ⟨iY, List.mem_range.2 hY,
      List.mem_flatMap.2 ⟨b, List.mem_range.2 hb, List.mem_map.2 ⟨i, List.mem_finRange i, rfl⟩⟩⟩

/-! ## Sample points -/

theorem mapsTo_unique {ws : List Write} {iY iX : Nat} {p q : ℚ × ℚ}
    (hp : MapsTo ws iY iX p) (hq : MapsTo ws iY iX q) : p = q := by
  obtain ⟨w, hw, h1, h2⟩ := hp.1
  rw [← hp.2 w hw h1 h2, ← hq.2 w hw h1 h2]

theorem MapsTo.of_eq {ws : List Write} {iY iX : Nat} {p q : ℚ × ℚ}
    (h : MapsTo ws iY iX p) (e : p = q) : MapsTo ws iY iX q := e ▸ h

theorem scalar_mapsTo (xC yC scale : ℚ) (iY iX : Nat) (hY : iY < WindowHeight)
    (hX : iX < WindowWidth) :
    MapsTo (Basic.writes xC yC scale) iY iX
      ((RegionOfInterest.left + xC) * scale + iX * (DeltaX * scale),
        (RegionOfInterest.top - iY * DeltaY + yC) * scale) := by
  constructor
  · exact ⟨_, (scalar_mem_writes xC yC scale _).2 ⟨iY, hY, iX, hX, rfl⟩, rfl, rfl⟩
  · intro w hw h1 h2
    obtain ⟨iY', _, iX', _, rfl⟩ := (scalar_mem_writes xC yC scale w).1 hw
    simp only [pixelWrite] at h1 h2
    subst h1 h2
    rfl

theorem batched_mapsTo (xC yC scale : ℚ) (iY iX : Nat) (hY : iY < WindowHeight)
    (hX : iX < WindowWidth) :
    MapsTo (Main.writes xC yC scale) iY iX
      ((RegionOfInterest.left + xC) * scale + ((iX % 8 : Nat) : ℚ) * DeltaX +
          ((iX / 8 : Nat) : ℚ) * (DeltaX * 8 * scale),
        (RegionOfInterest.top - iY * DeltaY + yC) * scale) := by
  have hW : WindowWidth = 1024 := rfl
  constructor
  · refine ⟨_, (batched_mem_writes xC yC scale _).2
      ⟨iY, hY, iX / 8, by omega, ⟨iX % 8, Nat.mod_lt _ (by norm_num)⟩, rfl⟩, rfl, ?_⟩
    simp only [Main.batchWrite]
    omega
  · intro w hw h1 h2
    obtain ⟨iY', _, b, _, i, rfl⟩ := (batched_mem_writes xC yC scale w).1 hw
    simp only [Main.batchWrite] at h1 h2
    have hi := i.isLt
    have hb : iX / 8 = b := by omega
    have hi' : iX % 8 = i.val := by omega
    subst h1
    simp only [Main.batchWrite, Main.batchX0_get, Main.rowY0_get, hb, hi']

/-- The batched sample point of pixel `(iY, iX)` against the closed form of the
scalar one: the abscissa is off by `(iX mod 8) * DeltaX * (1 - scale)`. -/
theorem batched_mapsTo_offset (xC yC scale : ℚ) (iY iX : Nat) (hY : iY < WindowHeight)
    (hX : iX < WindowWidth) :
    MapsTo (Main.writes xC yC scale) iY iX
      ((RegionOfInterest.left + xC + iX * DeltaX) * scale +
          ((iX % 8 : Nat) : ℚ) * DeltaX * (1 - scale),
        (RegionOfInterest.top + yC - iY * DeltaY) * scale) := by
  refine (batched_mapsTo xC yC scale iY iX hY hX).of_eq ?_
  have hcast : (iX : ℚ) = 8 * ((iX / 8 : Nat) : ℚ) + ((iX % 8 : Nat) : ℚ) := by
    exact_mod_cast (Nat.div_add_mod iX 8).symm
  apply Prod.ext
  · show (RegionOfInterest.left + xC) * scale + ((iX % 8 : Nat) : ℚ) * DeltaX +
        ((iX / 8 : Nat) : ℚ) * (DeltaX * 8 * scale) =
      (RegionOfInterest.left + xC + iX * DeltaX) * scale +
        ((iX % 8 : Nat) : ℚ) * DeltaX * (1 - scale)
    linear_combination (-(DeltaX * scale)) * hcast
  · show (RegionOfInterest.top - iY * DeltaY + yC) * scale =
      (RegionOfInterest.top + yC - iY * DeltaY) * scale
    ring

/-! ## Positions written in one frame -/

theorem range_eight_mul (n : Nat) :
    ((List.range n).flatMap fun b => (List.finRange 8).map fun (i : Fin 8) => 8 * b + i.val) =
      List.range (8 * n) := by
  induction n with
  | zero => rfl
  | succ n ih =>
    have e : 8 * (n + 1) = 8 * n + 8 := by ring
    rw [List.range_succ, List.flatMap_append, ih, e, List.range_add]
    rfl

theorem positions_grid (h w : Nat) (f : Nat → Nat → Write)
    (hf : ∀ a c, ((f a c).iY, (f a c).iX) = (a, c)) :
    positions ((List.range h).flatMap fun a => (List.range w).map fun c => f a c) =
      List.product (List.range h) (List.range w) := by
  simp only [positions, List.map_flatMap, List.map_map, Function.comp_def, hf, List.product]

theorem positions_grid_batched (h n : Nat) (f : Nat → Nat → Fin 8 → Write)
    (hf : ∀ a b i, ((f a b i).iY, (f a b i).iX) = (a, 8 * b + i.val)) :
    positions ((List.range h).flatMap fun a => (List.range n).flatMap fun b =>
        (List.finRange 8).map fun (i : Fin 8) => f a b i) =
      List.product (List.range h) (List.range (8 * n)) := by
  rw [← range_eight_mul]
  simp only [positions, List.map_flatMap, List.map_map, Function.comp_def, hf, List.product]

theorem scalar_writes_eq (xC yC scale : ℚ) :
    Basic.writes xC yC scale =
      (List.range WindowHeight).flatMap fun iY => (List.range WindowWidth).map fun iX =>
        pixelWrite iY iX ((RegionOfInterest.left + xC) * scale + iX * (DeltaX * scale))
          ((RegionOfInterest.top - iY * DeltaY + yC) * scale) := by
  have hrow : Basic.rowBody xC yC scale = fun iY => (List.range WindowWidth).map fun iX =>
      pixelWrite iY iX ((RegionOfInterest.left + xC) * scale + iX * (DeltaX * scale))
        ((RegionOfInterest.top - iY * DeltaY + yC) * scale) := by
    funext iY
    rw [Basic.rowBody, scalar_colLoop_eq]
    apply List.map_congr_left
    intro k _
    rw [Nat.zero_add]
  rw [Basic.writes, hrow]

theorem scalar_positions_writes (xC yC scale : ℚ) :
    positions (Basic.writes xC yC scale) =
      List.product (List.range WindowHeight) (List.range WindowWidth) := by
  rw [scalar_writes_eq]
  exact positions_grid _ _ _ (fun _ _ => rfl)

theorem batched_positions_writes (xC yC scale : ℚ) :
    positions (Main.writes xC yC scale) =
      List.product (List.range WindowHeight) (List.range WindowWidth) := by
  have hW : WindowWidth = 8 * ((WindowWidth + 7) / 8) := by norm_num [WindowWidth]
  rw [batched_writes_eq, positions_grid_batched _ _
    (fun a b i => Main.batchWrite a b (Main.batchX0 xC scale b) (Main.rowY0 yC scale a) i)
    (fun _ _ _ => rfl), ← hW]

theorem writeCount_of_nodup (ws : List Write) (h : (positions ws).Nodup) (iY iX : Nat) :
    writeCount ws iY iX = if (iY, iX) ∈ positions ws then 1 else 0 := by
  induction ws with
  | nil => rfl
  | cons w ws ih =>
    have hcons : positions (w :: ws) = (w.iY, w.iX) :: positions ws := rfl
    rw [hcons] at h
    obtain ⟨hnot, hnd⟩ := List.nodup_cons.1 h
    have hstep : writeCount (w :: ws) iY iX =
        writeCount ws iY iX + if w.iY = iY ∧ w.iX = iX then 1 else 0 := by
      unfold writeCount
      rw [List.countP_cons]
      simp
    rw [hstep, ih hnd, hcons]
    by_cases hw : w.iY = iY ∧ w.iX = iX
    · have e : (iY, iX) = (w.iY, w.iX) := by rw [hw.1, hw.2]
      rw [if_pos hw, e, if_neg hnot, if_pos (List.mem_cons_self _ _)]
    · have hne : (iY, iX) ≠ (w.iY, w.iX) := fun e =>
        hw ⟨(congrArg Prod.fst e).symm, (congrArg Prod.snd e).symm⟩
      rw [if_neg hw]
      by_cases hm : (iY, iX) ∈ positions ws
      · rw [if_pos hm, if_pos (List.mem_cons_of_mem _ hm)]
      · rw [if_neg hm, if_neg (fun hc => (List.mem_cons.1 hc).elim hne hm)]

theorem writeCount_of_positions (ws : List Write)
    (h : positions ws = List.product (List.range WindowHeight) (List.range WindowWidth))
    (iY iX : Nat) :
    writeCount ws iY iX = if iY < WindowHeight ∧ iX < WindowWidth then 1 else 0 := by
  have hnd : (positions ws).Nodup := by
    rw [h]
    exact (List.nodup_range _).product (List.nodup_range _)
  rw [writeCount_of_nodup ws hnd, h]
  have hiff : (iY, iX) ∈ List.product (List.range WindowHeight) (List.range WindowWidth) ↔
      iY < WindowHeight ∧ iX < WindowWidth := by
    rw [List.pair_mem_product, List.mem_range, List.mem_range]
  by_cases hc : iY < WindowHeight ∧ iX < WindowWidth
  · rw [if_pos hc, if_pos (hiff.2 hc)]
  · rw [if_neg hc, if_neg (fun hm => hc (hiff.1 hm))]

/-! ## The frame buffer -/

theorem applyWrites_cons (buf : TextureBuf) (w : Write) (ws : List Write) :
    applyWrites buf (w :: ws) =
      applyWrites (buf.store w.iY w.iX (setPixel (toUChar w.iterNo))) ws := rfl

theorem applyWrites_untouched (ws : List Write) (r c : Nat) :
    ∀ buf : TextureBuf, (∀ w, w ∈ ws → ¬ (w.iY = r ∧ w.iX = c)) →
      applyWrites buf ws r c = buf r c := by
  induction ws with
  | nil => intro buf _; rfl
  | cons w ws ih =>
    intro buf h
    rw [applyWrites_cons, ih _ (fun v hv => h v (List.mem_cons_of_mem _ hv))]
    have hw := h w (List.mem_cons_self _ _)
    have hw' : ¬ (r = w.iY ∧ c = w.iX) := fun e => hw ⟨e.1.symm, e.2.symm⟩
    simp [TextureBuf.store, hw']

theorem applyWrites_overwrites (ws : List Write) (r c : Nat) :
    ∀ buf buf' : TextureBuf, (∃ w, w ∈ ws ∧ w.iY = r ∧ w.iX = c) →
      applyWrites buf ws r c = applyWrites buf' ws r c := by
  induction ws with
  | nil =>
    rintro buf buf' ⟨w, hw, _⟩
    exact absurd hw (List.not_mem_nil _)
  | cons w ws ih =>
    intro buf buf' h
    rw [applyWrites_cons, applyWrites_cons]
    by_cases hlater : ∃ v, v ∈ ws ∧ v.iY = r ∧ v.iX = c
    · exact ih _ _ hlater
    · have hnot : ∀ v, v ∈ ws → ¬ (v.iY = r ∧ v.iX = c) :=
        fun v hv hv' => hlater ⟨v, hv, hv'⟩
      rw [applyWrites_untouched ws r c _ hnot, applyWrites_untouched ws r c _ hnot]
      obtain ⟨v, hv, hv1, hv2⟩ := h
      rcases List.mem_cons.1 hv with rfl | hv'
      · simp [TextureBuf.store, hv1, hv2]
      · exact absurd ⟨hv1, hv2⟩ (hnot v hv')

theorem written_of_count_pos (ws : List Write) (r c : Nat)
    (h : 0 < writeCount ws r c) : ∃ w, w ∈ ws ∧ w.iY = r ∧ w.iX = c := by
  obtain ⟨w, hw, hp⟩ := List.countP_pos_iff.1 h
  exact ⟨w, hw, of_decide_eq_true hp⟩

/-! ## The alpha channel -/

theorem le_sqrt_sqrt_iff (N a : Nat) : a ≤ Nat.sqrt (Nat.sqrt N) ↔ a ^ 4 ≤ N := by
  rw [Nat.le_sqrt', Nat.le_sqrt']
  have e : (a ^ 2) ^ 2 = a ^ 4 := by ring
  rw [e]

theorem le_alpha_iff (iterNo a : Nat) :
    a ≤ (setPixel iterNo).a ↔ a ^ 4 * 256 ≤ 255 ^ 4 * (iterNo + 1) := by
  have hM : MaxIterNo + 1 = 256 := rfl
  simp only [setPixel, hM]
  rw [le_sqrt_sqrt_iff, Nat.le_div_iff_mul_le (by norm_num)]

theorem alpha_mono (c d : Nat) (h : c ≤ d) : (setPixel c).a ≤ (setPixel d).a := by
  rw [le_alpha_iff]
  have h1 := (le_alpha_iff c (setPixel c).a).1 le_rfl
  have h2 : 255 ^ 4 * (c + 1) ≤ 255 ^ 4 * (d + 1) := Nat.mul_le_mul_left _ (by omega)
  exact le_trans h1 h2

theorem real_fourth_root_pow (q : ℝ) (hq : 0 ≤ q) :
    (Real.sqrt (Real.sqrt q) * 255) ^ 4 = q * 255 ^ 4 := by
  have h1 : Real.sqrt (Real.sqrt q) ^ 2 = Real.sqrt q := Real.sq_sqrt (Real.sqrt_nonneg q)
  have h2 : Real.sqrt q ^ 2 = q := Real.sq_sqrt hq
  calc (Real.sqrt (Real.sqrt q) * 255) ^ 4
      = ((Real.sqrt (Real.sqrt q)) ^ 2) ^ 2 * 255 ^ 4 := by ring
    _ = q * 255 ^ 4 := by rw [h1, h2]

theorem alpha_eq_floor (iterNo : Nat) :
    (setPixel iterNo).a =
      ⌊Real.sqrt (Real.sqrt (((iterNo : ℝ) + 1) / ((MaxIterNo : ℝ) + 1))) * 255⌋₊ := by
  have hM : ((MaxIterNo : ℝ) + 1) = 256 := by norm_num [MaxIterNo]
  rw [hM]
  have hq : (0 : ℝ) ≤ ((iterNo : ℝ) + 1) / 256 := by positivity
  have hv : (0 : ℝ) ≤ Real.sqrt (Real.sqrt (((iterNo : ℝ) + 1) / 256)) * 255 := by positivity
  apply eq_of_forall_le_iff
  intro a
  rw [le_alpha_iff, Nat.le_floor_iff hv,
    ← pow_le_pow_iff_left₀ (Nat.cast_nonneg a) hv (by norm_num : (4 : Nat) ≠ 0),
    real_fourth_root_pow _ hq]
  constructor
  · intro h
    have h' : ((a ^ 4 * 256 : Nat) : ℝ) ≤ ((255 ^ 4 * (iterNo + 1) : Nat) : ℝ) := by
      exact_mod_cast h
    push_cast at h'
    rw [div_mul_eq_mul_div, le_div_iff₀ (by norm_num : (0 : ℝ) < 256)]
    linarith
  · intro h
    rw [div_mul_eq_mul_div, le_div_iff₀ (by norm_num : (0 : ℝ) < 256)] at h
    have h' : ((a ^ 4 * 256 : Nat) : ℝ) ≤ ((255 ^ 4 * (iterNo + 1) : Nat) : ℝ) := by
      push_cast
      linarith
    exact_mod_cast h'

set_option maxRecDepth 100000 in
theorem alphaTable_margin : ∀ count, count < 255 → AlphaMargin count (alphaTable.getD count 0) := by
  decide

theorem alpha_eq_of_margin (count a : Nat) (h : AlphaMargin count a) : (setPixel count).a = a := by
  obtain ⟨h1, h2⟩ := h
  have hK : ∀ x : Nat, (1024 * x) ^ 4 * 256 = 1024 ^ 4 * (x ^ 4 * 256) := by
    intro x
    ring
  have hK' : (1024 * 255) ^ 4 * (count + 1) = 1024 ^ 4 * (255 ^ 4 * (count + 1)) := by ring
  apply le_antisymm
  · by_contra hn
    have hle : a + 1 ≤ (setPixel count).a := by omega
    have h3 := (le_alpha_iff count (a + 1)).1 hle
    have h4 : (1024 * (a + 1) - 1) ^ 4 * 256 < (1024 * (a + 1)) ^ 4 * 256 :=
      Nat.mul_lt_mul_of_pos_right (Nat.pow_lt_pow_left (by omega) (by norm_num)) (by norm_num)
    rw [hK] at h4
    rw [hK'] at h2
    exact absurd (Nat.mul_le_mul_left (1024 ^ 4) h3) (not_le.2 (lt_of_le_of_lt h2 h4))
  · rw [le_alpha_iff]
    have h4 : (1024 * a) ^ 4 * 256 ≤ (1024 * a + 1) ^ 4 * 256 :=
      Nat.mul_le_mul_right _ (Nat.pow_le_pow_left (by omega) 4)
    rw [hK] at h4
    rw [hK'] at h1
    exact Nat.le_of_mul_le_mul_left (le_trans h4 h1) (by norm_num)

/-- Below the cap the exact alpha value stays `1/1024` away from the integers
on either side, so an error below `1/1024` in the computed product
`sqrt(sqrt(...)) * 255` cannot change its truncation. -/
theorem alpha_margin (count : Nat) (h : count < MaxIterNo) :
    AlphaMargin count (setPixel count).a := by
  have hm := alphaTable_margin count h
  rw [alpha_eq_of_margin count _ hm]
  exact hm

/-! ## Counts handed to `setPixel` -/

theorem CountAt.congr_count {ws : List Write} {iY iX : Nat} {c d : Int}
    (h : CountAt ws iY iX c) (e : c = d) : CountAt ws iY iX d := e ▸ h

theorem scalar_countAt (xC yC scale : ℚ) (iY iX : Nat) (hY : iY < WindowHeight)
    (hX : iX < WindowWidth) :
    CountAt (Basic.writes xC yC scale) iY iX
      ((Basic.iterNo ((RegionOfInterest.left + xC) * scale + iX * (DeltaX * scale))
        ((RegionOfInterest.top - iY * DeltaY + yC) * scale) : Nat) : Int) := by
  constructor
  · exact ⟨_, (scalar_mem_writes xC yC scale _).2 ⟨iY, hY, iX, hX, rfl⟩, rfl, rfl⟩
  · intro w hw h1 h2
    obtain ⟨iY', _, iX', _, rfl⟩ := (scalar_mem_writes xC yC scale w).1 hw
    simp only [pixelWrite] at h1 h2
    subst h1 h2
    rfl

theorem batched_countAt (xC yC scale : ℚ) (iY b : Nat) (i : Fin 8) (hY : iY < WindowHeight)
    (hb : b < (WindowWidth + 7) / 8) :
    CountAt (Main.writes xC yC scale) iY (8 * b + i.val)
      (toInt32 ((Main.iterNos (Main.batchX0 xC scale b) (Main.rowY0 yC scale iY)).get i)) := by
  constructor
  · exact ⟨_, (batched_mem_writes xC yC scale _).2 ⟨iY, hY, b, hb, i, rfl⟩, rfl, rfl⟩
  · intro w hw h1 h2
    obtain ⟨iY', _, b', _, i', rfl⟩ := (batched_mem_writes xC yC scale w).1 hw
    simp only [Main.batchWrite] at h1 h2
    have hi := i.isLt
    have hi' := i'.isLt
    have hb' : b' = b := by omega
    have hii : i' = i := Fin.ext (by omega)
    subst h1 hb' hii
    rfl

theorem toUChar_of_le (n : Nat) (h : n ≤ MaxIterNo) : toUChar (n : Int) = n := by
  have hM : MaxIterNo = 255 := rfl
  unfold toUChar
  omega

theorem pixelWrite_iterNo_bounds (iY iX : Nat) (x0 y0 : ℚ) :
    0 ≤ (pixelWrite iY iX x0 y0).iterNo ∧ (pixelWrite iY iX x0 y0).iterNo ≤ MaxIterNo ∧
      ((toUChar (pixelWrite iY iX x0 y0).iterNo : Nat) : Int) = (pixelWrite iY iX x0 y0).iterNo := by
  have h := Basic.iterNo_le x0 y0
  simp only [pixelWrite]
  refine ⟨Int.natCast_nonneg _, by exact_mod_cast h, ?_⟩
  rw [toUChar_of_le _ h]

theorem batchWrite_iterNo_bounds (iY b : Nat) (x0 y0 : M256 ℚ) (i : Fin 8) :
    0 ≤ (Main.batchWrite iY b x0 y0 i).iterNo ∧
      (Main.batchWrite iY b x0 y0 i).iterNo ≤ MaxIterNo ∧
      ((toUChar (Main.batchWrite iY b x0 y0 i).iterNo : Nat) : Int) =
        (Main.batchWrite iY b x0 y0 i).iterNo := by
  have h := Main.iterNos_get_le x0 y0 i
  simp only [Main.batchWrite, toInt32_of_le _ h]
  refine ⟨Int.natCast_nonneg _, by exact_mod_cast h, ?_⟩
  rw [toUChar_of_le _ h]

/-! ## The claims -/

/-- Claim C2, at the failing input. With `xC = 0`, `yC = 0`, `scale = 2` the
batched renderer computes pixel `(0, 1)` from the sample point `(-4093/1024, 2)`
and the scalar renderer from `(-2045/512, 2)`: the two mappings differ. -/
theorem batched_mapping_differs :
    MapsTo (Main.writes 0 0 2) 0 1 (-4093 / 1024, 2) ∧
    MapsTo (Basic.writes 0 0 2) 0 1 (-2045 / 512, 2) ∧
    ¬ ∃ p, MapsTo (Main.writes 0 0 2) 0 1 p ∧ MapsTo (Basic.writes 0 0 2) 0 1 p := by
  have hM : MapsTo (Main.writes 0 0 2) 0 1 (-4093 / 1024, 2) := by
    refine (batched_mapsTo 0 0 2 0 1 (by decide) (by decide)).of_eq ?_
    norm_num [RegionOfInterest, DeltaX, DeltaY, WindowWidth, WindowHeight]
  have hB : MapsTo (Basic.writes 0 0 2) 0 1 (-2045 / 512, 2) := by
    refine (scalar_mapsTo 0 0 2 0 1 (by decide) (by decide)).of_eq ?_
    norm_num [RegionOfInterest, DeltaX, DeltaY, WindowWidth, WindowHeight]
  refine ⟨hM, hB, ?_⟩
  rintro ⟨p, h1, h2⟩
  have e : ((-4093 / 1024, 2) : ℚ × ℚ) = (-2045 / 512, 2) :=
    (mapsTo_unique hM h1).trans (mapsTo_unique h2 hB)
  norm_num at e

/-- Claim C3. For every viewport and every pixel `(iY, iX)` of the window, the
scalar renderer, which starts each row at `(left + xC) * scale` and adds
`DeltaX * scale` per column, computes the pixel from the sample point
`((left + xC + iX * DeltaX) * scale, (top + yC - iY * DeltaY) * scale)`, with
`DeltaX = (right - left) / 1024` and `DeltaY = (top - bottom) / 1024`. -/
theorem scalar_mapping_closed_form (xC yC scale : ℚ) (iY iX : Nat)
    (hY : iY < WindowHeight) (hX : iX < WindowWidth) :
    MapsTo (Basic.writes xC yC scale) iY iX
      ((RegionOfInterest.left + xC + iX * DeltaX) * scale,
        (RegionOfInterest.top + yC - iY * DeltaY) * scale) ∧
    DeltaX = (RegionOfInterest.right - RegionOfInterest.left) / 1024 ∧
    DeltaY = (RegionOfInterest.top - RegionOfInterest.bottom) / 1024 := by
  refine ⟨(scalar_mapsTo xC yC scale iY iX hY hX).of_eq ?_, ?_, ?_⟩
  · apply Prod.ext
    · show (RegionOfInterest.left + xC) * scale + iX * (DeltaX * scale) =
        (RegionOfInterest.left + xC + iX * DeltaX) * scale
      ring
    · show (RegionOfInterest.top - iY * DeltaY + yC) * scale =
        (RegionOfInterest.top + yC - iY * DeltaY) * scale
      ring
  · norm_num [DeltaX, WindowWidth]
  · norm_num [DeltaY, WindowHeight]

theorem scalar_mapping_closed_form_witness :
    (3 < WindowHeight ∧ 5 < WindowWidth) ∧
    (MapsTo (Basic.writes (1 / 2) 0 2) 3 5
      ((RegionOfInterest.left + 1 / 2 + (5 : Nat) * DeltaX) * 2,
        (RegionOfInterest.top + 0 - (3 : Nat) * DeltaY) * 2) ∧
    DeltaX = (RegionOfInterest.right - RegionOfInterest.left) / 1024 ∧
    DeltaY = (RegionOfInterest.top - RegionOfInterest.bottom) / 1024) :=
  ⟨⟨by decide, by decide⟩, scalar_mapping_closed_form (1 / 2) 0 2 3 5 (by decide) (by decide)⟩

/-- Claim C5. Every count handed to `setPixel`, by the scalar renderer and by
every lane of every batch of the batched renderer, is an integer in
`[0, MaxIterNo] = [0, 255]`, and narrowing it to `unsigned char` keeps it. -/
theorem count_fits_byte (xC yC scale : ℚ) (w : Write)
    (hw : w ∈ Basic.writes xC yC scale ∨ w ∈ Main.writes xC yC scale) :
    0 ≤ w.iterNo ∧ w.iterNo ≤ MaxIterNo ∧ w.iterNo ≤ 255 ∧
      ((toUChar w.iterNo : Nat) : Int) = w.iterNo := by
  rcases hw with hw | hw
  · obtain ⟨iY, _, iX, _, rfl⟩ := (scalar_mem_writes xC yC scale w).1 hw
    obtain ⟨h1, h2, h3⟩ := pixelWrite_iterNo_bounds iY iX
      ((RegionOfInterest.left + xC) * scale + iX * (DeltaX * scale))
      ((RegionOfInterest.top - iY * DeltaY + yC) * scale)
    exact ⟨h1, h2, h2, h3⟩
  · obtain ⟨iY, _, b, _, i, rfl⟩ := (batched_mem_writes xC yC scale w).1 hw
    obtain ⟨h1, h2, h3⟩ := batchWrite_iterNo_bounds iY b (Main.batchX0 xC scale b)
      (Main.rowY0 yC scale iY) i
    exact ⟨h1, h2, h2, h3⟩

theorem count_fits_byte_witness :
    pixelWrite 0 0 (-2) 1 ∈ Basic.writes 0 0 1 ∧
    (0 ≤ (pixelWrite 0 0 (-2) 1).iterNo ∧ (pixelWrite 0 0 (-2) 1).iterNo ≤ MaxIterNo ∧
      (pixelWrite 0 0 (-2) 1).iterNo ≤ 255 ∧
      ((toUChar (pixelWrite 0 0 (-2) 1).iterNo : Nat) : Int) = (pixelWrite 0 0 (-2) 1).iterNo) :=
  have hmem : pixelWrite 0 0 (-2) 1 ∈ Basic.writes 0 0 1 :=
    (scalar_mem_writes 0 0 1 _).2
      ⟨0, by decide, 0, by decide, by norm_num [RegionOfInterest]⟩
  ⟨hmem, count_fits_byte 0 0 1 _ (Or.inl hmem)⟩

/-- Claim C6, as stated, fails. At `scale = 1` and offset `(0, 0)` both
renderers compute the pixel of row 0 and column `WindowWidth - 1` from a sample
point other than the corner `(right, top)` of the region of interest. -/
theorem corner_right_top_not_reached :
    (∃ w, w ∈ Basic.writes 0 0 1 ∧ w.iY = 0 ∧ w.iX = WindowWidth - 1 ∧
      (w.x0, w.y0) ≠ (RegionOfInterest.right, RegionOfInterest.top)) ∧
    (∃ w, w ∈ Main.writes 0 0 1 ∧ w.iY = 0 ∧ w.iX = WindowWidth - 1 ∧
      (w.x0, w.y0) ≠ (RegionOfInterest.right, RegionOfInterest.top)) := by
  constructor
  · have h := scalar_mapsTo 0 0 1 0 (WindowWidth - 1) (by decide) (by decide)
    obtain ⟨w, hw, h1, h2⟩ := h.1
    refine ⟨w, hw, h1, h2, ?_⟩
    rw [h.2 w hw h1 h2]
    norm_num [RegionOfInterest, DeltaX, DeltaY, WindowWidth, WindowHeight]
  · have h := batched_mapsTo 0 0 1 0 (WindowWidth - 1) (by decide) (by decide)
    obtain ⟨w, hw, h1, h2⟩ := h.1
    refine ⟨w, hw, h1, h2, ?_⟩
    rw [h.2 w hw h1 h2]
    norm_num [RegionOfInterest, DeltaX, DeltaY, WindowWidth, WindowHeight]

/-- Claim C6, amended. At `scale = 1` and offset `(0, 0)` both renderers compute
pixel `(0, 0)` from the corner `(left, top)`, and the pixels `(0, W - 1)`,
`(H - 1, 0)` and `(H - 1, W - 1)` from the points one pixel step inside the
other three corners: `(right - DeltaX, top)`, `(left, bottom + DeltaY)` and
`(right - DeltaX, bottom + DeltaY)`. -/
theorem corners_map_one_step_inside :
    (MapsTo (Basic.writes 0 0 1) 0 0 (RegionOfInterest.left, RegionOfInterest.top) ∧
      MapsTo (Basic.writes 0 0 1) 0 (WindowWidth - 1)
        (RegionOfInterest.right - DeltaX, RegionOfInterest.top) ∧
      MapsTo (Basic.writes 0 0 1) (WindowHeight - 1) 0
        (RegionOfInterest.left, RegionOfInterest.bottom + DeltaY) ∧
      MapsTo (Basic.writes 0 0 1) (WindowHeight - 1) (WindowWidth - 1)
        (RegionOfInterest.right - DeltaX, RegionOfInterest.bottom + DeltaY)) ∧
    (MapsTo (Main.writes 0 0 1) 0 0 (RegionOfInterest.left, RegionOfInterest.top) ∧
      MapsTo (Main.writes 0 0 1) 0 (WindowWidth - 1)
        (RegionOfInterest.right - DeltaX, RegionOfInterest.top) ∧
      MapsTo (Main.writes 0 0 1) (WindowHeight - 1) 0
        (RegionOfInterest.left, RegionOfInterest.bottom + DeltaY) ∧
      MapsTo (Main.writes 0 0 1) (WindowHeight - 1) (WindowWidth - 1)
        (RegionOfInterest.right - DeltaX, RegionOfInterest.bottom + DeltaY)) := by
  refine ⟨⟨?_, ?_, ?_, ?_⟩, ⟨?_, ?_, ?_, ?_⟩⟩
  · refine (scalar_mapsTo 0 0 1 0 0 (by decide) (by decide)).of_eq ?_
    norm_num [RegionOfInterest, DeltaX, DeltaY, WindowWidth, WindowHeight]
  · refine (scalar_mapsTo 0 0 1 0 (WindowWidth - 1) (by decide) (by decide)).of_eq ?_
    norm_num [RegionOfInterest, DeltaX, DeltaY, WindowWidth, WindowHeight]
  · refine (scalar_mapsTo 0 0 1 (WindowHeight - 1) 0 (by decide) (by decide)).of_eq ?_
    norm_num [RegionOfInterest, DeltaX, DeltaY, WindowWidth, WindowHeight]
  · refine (scalar_mapsTo 0 0 1 (WindowHeight - 1) (WindowWidth - 1) (by decide)
      (by decide)).of_eq ?_
    norm_num [RegionOfInterest, DeltaX, DeltaY, WindowWidth, WindowHeight]
  · refine (batched_mapsTo 0 0 1 0 0 (by decide) (by decide)).of_eq ?_
    norm_num [RegionOfInterest, DeltaX, DeltaY, WindowWidth, WindowHeight]
  · refine (batched_mapsTo 0 0 1 0 (WindowWidth - 1) (by decide) (by decide)).of_eq ?_
    norm_num [RegionOfInterest, DeltaX, DeltaY, WindowWidth, WindowHeight]
  · refine (batched_mapsTo 0 0 1 (WindowHeight - 1) 0 (by decide) (by decide)).of_eq ?_
    norm_num [RegionOfInterest, DeltaX, DeltaY, WindowWidth, WindowHeight]
  · refine (batched_mapsTo 0 0 1 (WindowHeight - 1) (WindowWidth - 1) (by decide)
      (by decide)).of_eq ?_
    norm_num [RegionOfInterest, DeltaX, DeltaY, WindowWidth, WindowHeight]

/-- Claim C7. For every count in `[0, 255]`, `setPixel` writes
`r = g = b = ((count + 1) mod 2) * 255`: 255 for an even count and 0 for an odd
one; two counts of equal parity get equal colour channels, and two counts of
different parity get the channels 0 and 255, one each. -/
theorem colour_parity (c1 c2 : Nat) :
    ((setPixel c1).r = ((c1 + 1) % 2) * 255 ∧ (setPixel c1).g = ((c1 + 1) % 2) * 255 ∧
      (setPixel c1).b = ((c1 + 1) % 2) * 255) ∧
    (c1 % 2 = 0 → (setPixel c1).r = 255) ∧
    (c1 % 2 = 1 → (setPixel c1).r = 0) ∧
    (c1 % 2 = c2 % 2 → (setPixel c1).r = (setPixel c2).r ∧ (setPixel c1).g = (setPixel c2).g ∧
      (setPixel c1).b = (setPixel c2).b) ∧
    (c1 % 2 ≠ c2 % 2 →
      ((setPixel c1).r = 0 ∧ (setPixel c2).r = 255 ∨ (setPixel c1).r = 255 ∧ (setPixel c2).r = 0) ∧
      (setPixel c2).g = (setPixel c2).r ∧ (setPixel c2).b = (setPixel c2).r ∧
      (setPixel c1).g = (setPixel c1).r ∧ (setPixel c1).b = (setPixel c1).r) := by
  have hr : ∀ c : Nat, (((c + 1) % 2) * 255) % 256 = ((c + 1) % 2) * 255 := by
    intro c
    omega
  have he : ∀ c : Nat, c % 2 = 0 → ((c + 1) % 2) * 255 = 255 := by
    intro c hc
    omega
  have ho : ∀ c : Nat, c % 2 = 1 → ((c + 1) % 2) * 255 = 0 := by
    intro c hc
    omega
  have hR : ∀ c : Nat, (setPixel c).r = ((c + 1) % 2) * 255 := fun c => hr c
  have hG : ∀ c : Nat, (setPixel c).g = ((c + 1) % 2) * 255 := fun c => hr c
  have hB : ∀ c : Nat, (setPixel c).b = ((c + 1) % 2) * 255 := fun c => hr c
  refine ⟨⟨hR c1, hG c1, hB c1⟩, fun e => (hR c1).trans (he c1 e),
    fun e => (hR c1).trans (ho c1 e), ?_, ?_⟩
  · intro h
    have e : (c1 + 1) % 2 = (c2 + 1) % 2 := by omega
    rw [hR c1, hG c1, hB c1, hR c2, hG c2, hB c2, e]
    exact ⟨rfl, rfl, rfl⟩
  · intro h
    rw [hG c2, hB c2, hG c1, hB c1, hR c1, hR c2]
    refine ⟨?_, rfl, rfl, rfl, rfl⟩
    omega

theorem colour_parity_witness :
    (setPixel 4).r = 255 ∧ (setPixel 7).r = 0 ∧ (setPixel 4).g = (setPixel 6).g :=
  ⟨(colour_parity 4 7).2.1 (by decide), (colour_parity 7 4).2.2.1 (by decide),
    ((colour_parity 4 6).2.2.2.1 (by decide)).2.1⟩

/-- Claim C8. For every count in `[0, MaxIterNo]` the alpha that `setPixel`
writes is `floor(((count + 1) / (MaxIterNo + 1)) ^ (1/4) * 255)` over the reals,
that is the largest integer `a` with `a ^ 4 * 256 ≤ 255 ^ 4 * (count + 1)`; it
is 255 at `count = MaxIterNo`, and at `count = 0` it is positive and the least
alpha of all counts. -/
theorem alpha_fourth_root (count : Nat) (h : count ≤ MaxIterNo) :
    (setPixel count).a =
      ⌊Real.sqrt (Real.sqrt (((count : ℝ) + 1) / ((MaxIterNo : ℝ) + 1))) * 255⌋₊ ∧
    IsGreatest {a : Nat | a ^ 4 * 256 ≤ 255 ^ 4 * (count + 1)} (setPixel count).a ∧
    (setPixel MaxIterNo).a = 255 ∧
    0 < (setPixel 0).a ∧
    (setPixel 0).a ≤ (setPixel count).a ∧
    (setPixel count).a ≤ 255 := by
  have htop : (setPixel MaxIterNo).a = 255 := by
    norm_num [setPixel, MaxIterNo]
  refine ⟨alpha_eq_floor count, ⟨?_, ?_⟩, htop, ?_, alpha_mono 0 count (Nat.zero_le _), ?_⟩
  · exact (le_alpha_iff count _).1 le_rfl
  · intro a ha
    exact (le_alpha_iff count a).2 ha
  · exact (le_alpha_iff 0 1).2 (by norm_num)
  · rw [← htop]
    exact alpha_mono count MaxIterNo h

theorem alpha_fourth_root_witness :
    (16 : Nat) ≤ MaxIterNo ∧
    (setPixel 16).a =
      ⌊Real.sqrt (Real.sqrt ((((16 : Nat) : ℝ) + 1) / ((MaxIterNo : ℝ) + 1))) * 255⌋₊ ∧
    (setPixel 0).a ≤ (setPixel 16).a :=
  ⟨by decide, (alpha_fourth_root 16 (by decide)).1, (alpha_fourth_root 16 (by decide)).2.2.2.2.1⟩

/-- Claim C9. One call of `renderTexture`, scalar or batched, calls `setPixel`
exactly once for each position `(iY, iX)` with `iY < 1024` and `iX < 1024` and
never for any other position; so the buffer after the call does not depend on
its previous contents inside the window, and no cell outside is changed. -/
theorem every_pixel_written_once (xC yC scale : ℚ) (iY iX : Nat) :
    writeCount (Basic.writes xC yC scale) iY iX =
      (if iY < WindowHeight ∧ iX < WindowWidth then 1 else 0) ∧
    writeCount (Main.writes xC yC scale) iY iX =
      (if iY < WindowHeight ∧ iX < WindowWidth then 1 else 0) ∧
    (iY < WindowHeight → iX < WindowWidth → ∀ buf buf' : TextureBuf,
      Basic.renderTexture buf xC yC scale iY iX = Basic.renderTexture buf' xC yC scale iY iX ∧
      Main.renderTexture buf xC yC scale iY iX = Main.renderTexture buf' xC yC scale iY iX) ∧
    (¬ (iY < WindowHeight ∧ iX < WindowWidth) → ∀ buf : TextureBuf,
      Basic.renderTexture buf xC yC scale iY iX = buf iY iX ∧
      Main.renderTexture buf xC yC scale iY iX = buf iY iX) := by
  have hB := writeCount_of_positions _ (scalar_positions_writes xC yC scale) iY iX
  have hM := writeCount_of_positions _ (batched_positions_writes xC yC scale) iY iX
  refine ⟨hB, hM, ?_, ?_⟩
  · intro hY hX buf buf'
    rw [if_pos ⟨hY, hX⟩] at hB hM
    exact ⟨applyWrites_overwrites _ iY iX buf buf'
        (written_of_count_pos _ iY iX (by rw [hB]; exact Nat.one_pos)),
      applyWrites_overwrites _ iY iX buf buf'
        (written_of_count_pos _ iY iX (by rw [hM]; exact Nat.one_pos))⟩
  · intro hout buf
    rw [if_neg hout] at hB hM
    have key : ∀ ws : List Write, writeCount ws iY iX = 0 →
        ∀ w, w ∈ ws → ¬ (w.iY = iY ∧ w.iX = iX) := by
      intro ws h0 w hw hpos
      have hpos' : 0 < writeCount ws iY iX :=
        List.countP_pos_iff.2 ⟨w, hw, decide_eq_true hpos⟩
      omega
    exact ⟨applyWrites_untouched _ iY iX buf (key _ hB),
      applyWrites_untouched _ iY iX buf (key _ hM)⟩

theorem every_pixel_written_once_witness :
    writeCount (Basic.writes 0 0 1) 3 1023 = 1 ∧
    writeCount (Main.writes 0 0 1) 3 1023 = 1 ∧
    writeCount (Main.writes 0 0 1) 3 1024 = 0 ∧
    Main.renderTexture (fun _ _ => { r := 0, g := 0, b := 0, a := 0 }) 0 0 1 3 1023 =
      Main.renderTexture (fun _ _ => { r := 9, g := 9, b := 9, a := 9 }) 0 0 1 3 1023 :=
  ⟨(every_pixel_written_once 0 0 1 3 1023).1.trans (if_pos ⟨by decide, by decide⟩),
    (every_pixel_written_once 0 0 1 3 1023).2.1.trans (if_pos ⟨by decide, by decide⟩),
    (every_pixel_written_once 0 0 1 3 1024).2.1.trans (if_neg (by decide)),
    ((every_pixel_written_once 0 0 1 3 1023).2.2.1 (by decide) (by decide) _ _).2⟩

end Mandelbrot
